import Mathlib

/-
Verification of the magic_mobi calibre catalog plugin (src/generate.py).

Python strings are modelled as lists of characters (`Str`); Python's
lexicographic string comparison is `pyStrLt`.  External calibre/icu
capabilities (transliteration, capitalization, title_sort article
handling) are either modelled from the spec for ASCII input or passed
as explicit function parameters; each such definition says so in its
doc comment.  All stateful code is translated to explicit state
passing; fallible code returns `Except`.
-/

namespace MagicCatalog

/-- Python strings as lists of characters. -/
abbrev Str := List Char

/-- Build a `Str` from a Lean string literal. -/
def str (s : String) : Str := s.toList

/-- Python's `<` on strings: lexicographic comparison of code points. -/
def pyStrLt : Str → Str → Bool
  | [], [] => false
  | [], _ :: _ => true
  | _ :: _, [] => false
  | a :: as, b :: bs =>
    if a.toNat < b.toNat then true
    else if a.toNat = b.toNat then pyStrLt as bs
    else false

/-- `sep.join(xs)` from Python. -/
def joinSep (sep : Str) : List Str → Str
  | [] => []
  | [x] => x
  | x :: y :: rest => x ++ sep ++ joinSep sep (y :: rest)

/-- `' '.join(xs)`. -/
def joinSp (xs : List Str) : Str := joinSep [' '] xs

/-- What `' '.join` appends after its first element. -/
def joinSpTail (xs : List Str) : Str :=
  match xs with
  | [] => []
  | _ :: _ => ' ' :: joinSp xs

/-- Whitespace test used by Python's `str.split()`. -/
def pyIsSpace (c : Char) : Bool :=
  c.toNat = 32 || c.toNat = 9 || c.toNat = 10 || c.toNat = 13

/-- Python's `s.split()`: split on whitespace runs, dropping empty pieces. -/
def pySplit (s : Str) : List Str :=
  (s.splitOnP pyIsSpace).filter (fun w => w ≠ [])

/- ### C6: the unique-author roll-up fold (`fetch_books_by_author`) -/

/-- Loop state of the unique-author fold in `fetch_books_by_author`
(lines 650-675): current (display, sort) pair, running book count,
`multiple_authors` flag, accumulated roll-up, loop index, and the last
pair seen (Python's loop variable surviving into the `for/else`). -/
structure UAState where
  cur : Str × Str
  cnt : Nat
  multi : Bool
  acc : List (Str × Str × Nat)
  i : Nat
  last : Str × Str
deriving DecidableEq

/-- One iteration of the unique-author fold.  `it` stands for the external
`icu_title` capability applied to the sort value when an entry is emitted;
`len` is `len(authors)`. -/
def uaStep (it : Str → Str) (len : Nat) (s : UAState) (a : Str × Str) : UAState :=
  if a ≠ s.cur then
    ⟨a, 1, true, s.acc ++ [(s.cur.1, it s.cur.2, s.cnt)], s.i + 1, a⟩
  else if s.i = 0 ∧ len = 1 then
    ⟨s.cur, s.cnt, s.multi, s.acc ++ [(s.cur.1, it s.cur.2, s.cnt)], s.i + 1, a⟩
  else
    ⟨s.cur, s.cnt + 1, s.multi, s.acc, s.i + 1, a⟩

/-- The unique-author roll-up of `fetch_books_by_author`: fold the
`(display, sort)` pairs, then the Python `for/else` clause appends the
final author under its guard.  On an empty list the source raises
`IndexError` at `authors[0]`; callers guarantee a nonempty list. -/
def unique_authors_fold (it : Str → Str) (authors : List (Str × Str)) :
    List (Str × Str × Nat) :=
  match authors with
  | [] => []
  | a0 :: _ =>
    let fin := authors.foldl (uaStep it authors.length) ⟨a0, 0, false, [], 0, a0⟩
    if (fin.cur = fin.last ∧ authors.length > 1) ∨ fin.multi = false then
      fin.acc ++ [(fin.cur.1, it fin.cur.2, fin.cnt)]
    else fin.acc

/- ### C8: `relist_multiple_authors` -/

/-- One catalogable record, with the fields `relist_multiple_authors`,
the genre grouping and the author fold read or write. -/
structure Book where
  id : Nat
  title : Str
  author : Str
  authors : List Str
  author_sort : Str
  series : Option Str
  genres : List Str
deriving DecidableEq

/-- `cloned_authors.pop(0); cloned_authors.append(first_author)`:
one left rotation. -/
def rot1 : List Str → List Str
  | [] => []
  | a :: rest => rest ++ [a]

/-- `' & '.join`. -/
def joinAmp (xs : List Str) : Str := joinSep (str " & ") xs

/-- The clone built for one rotation of the author list
(`deepcopy` plus the three reassigned fields); `ats` is the external
`author_to_author_sort` capability. -/
def mkClone (ats : Str → Str) (b : Book) (cur : List Str) : Book :=
  { b with author := joinAmp cur, authors := cur,
           author_sort := joinAmp (cur.map ats) }

/-- The inner loop of `relist_multiple_authors`: starting from the book's
author list, perform `k` pop/append rotations, emitting a clone after
each rotation (the Python loop body runs for `x = 1 .. len(authors)-1`). -/
def cloneIter (ats : Str → Str) (b : Book) : Nat → List Str → List Book
  | 0, _ => []
  | k + 1, cur =>
    let next := rot1 cur
    mkClone ats b next :: cloneIter ats b k next

/-- `relist_multiple_authors` (lines 2752-2772): collect the multi-author
books, then append one clone per additional author to the input list. -/
def relist_multiple_authors (ats : Str → Str) (books : List Book) : List Book :=
  let multi := books.filter (fun b => 1 < b.authors.length)
  books ++ multi.flatMap (fun b => cloneIter ats b (b.authors.length - 1) b.authors)

/-- `k`-fold left rotation (the closed form the clones are proved to match). -/
def rotN (k : Nat) (xs : List Str) : List Str := rot1^[k] xs

/-- The number of extra entries `relist_multiple_authors` must add:
`sum(len(authors)-1 for records with >1 author)`. -/
def extraAuthors (books : List Book) : Nat :=
  (books.map (fun b => if 1 < b.authors.length then b.authors.length - 1 else 0)).sum

/- ### C3/C4: `generate_sort_title` and `letter_or_symbol` -/

/-- `re.match('[0-9]+', word[0])`: the character is an ASCII digit. -/
def matchDigit (c : Char) : Bool := 48 ≤ c.toNat && c.toNat ≤ 57

/-- ASCII letter test, `re.search('[a-zA-Z]', ·)` on one character. -/
def isAsciiAlpha (c : Char) : Bool :=
  (65 ≤ c.toNat && c.toNat ≤ 90) || (97 ≤ c.toNat && c.toNat ≤ 122)

/-- Modelled from the spec: the external transliteration capability
`ascii_text` ("(string) -> asciiApproximation").  On the ASCII range it
is the identity; every theorem below restricts its input to ASCII. -/
def ascii_text (s : Str) : Str := s

/-- `self.SYMBOLS`, the marker string `letter_or_symbol` returns for
non-letters. -/
def SYMBOLS : Str := str "Symbols"

/-- `letter_or_symbol` (lines 2577-2591): the character itself when its
transliteration contains an ASCII letter, otherwise `SYMBOLS`. -/
def letter_or_symbol (c : Char) : Str :=
  if (ascii_text [c]).any isAsciiAlpha then [c] else SYMBOLS

/-- First character of a word produced by `split()` (never empty; the
default is unreachable). -/
def headChar (w : Str) : Char := w.headD ' '

/-- Lower-case a string (ASCII, mirroring the icu behavior on ASCII). -/
def lowerStr (s : Str) : Str := s.map Char.toLower

/-- Modelled from the spec: the external icu `capitalize` capability,
upper-casing the first character and lower-casing the rest (ASCII). -/
def capitalize (s : Str) : Str :=
  match s with
  | [] => []
  | c :: rest => c.toUpper :: lowerStr rest

/-- Decimal digit character for `d < 10`. -/
def digitChar (d : Nat) : Char := Char.ofNat (48 + d)

/-- Most-significant-first decimal digits, by fuel-bounded recursion
(the fuel is always sufficient below). -/
def natReprAux : Nat → Nat → Str
  | 0, _ => []
  | fuel + 1, n =>
    if n < 10 then [digitChar n]
    else natReprAux fuel (n / 10) ++ [digitChar (n % 10)]

/-- Decimal rendering of a natural number (the digit string printed by
`'%.0f'` for an exactly-represented float value). -/
def natRepr (n : Nat) : Str := natReprAux (n + 1) n

/-- `'%10.0f'` padding: right-justify in a field of (at least) 10
characters, padding with spaces on the left. -/
def pad10 (s : Str) : Str := List.replicate (10 - s.length) ' ' ++ s

/-- Numeric value of a digit string, as `float()` computes it for the
pure-digit prefix (exact for runs of at most 15 digits; the theorems
below restrict to that range, where the Python float is exact). -/
def digitsVal (d : Str) : Nat := d.foldl (fun a c => a * 10 + (c.toNat - 48)) 0

/-- The numeric reformatting of a digit-leading token (both branches of
`generate_sort_title`): drop every comma, split at the first non-digit,
render the digit prefix through `float` and `'%10.0f'`, keep the suffix. -/
def numWord (w : Str) : Str :=
  let w' := w.filter (fun c => c ≠ ',')
  pad10 (natRepr (digitsVal (w'.takeWhile matchDigit))) ++ w'.dropWhile matchDigit

/-- Modelled from the spec: the external calibre `title_sort` composed
with `split()`.  `title_sort` moves a leading article (`A`, `An`, `The`,
case-insensitive, followed by whitespace) to the end after a comma
("The Left Hand of Darkness" becomes "Left Hand of Darkness, The");
at the word level the comma attaches to the last remaining word and the
article becomes the final word. -/
def title_sort_words (title : Str) : List Str :=
  match pySplit title with
  | [] => []
  | w :: rest =>
    if (lowerStr w = str "a" ∨ lowerStr w = str "an" ∨ lowerStr w = str "the")
        ∧ rest ≠ [] then
      rest.dropLast ++ [rest.getLastD [] ++ [',']] ++ [w]
    else w :: rest

/-- Processing of a non-leading word (`i > 0` branch of
`generate_sort_title`): digit-leading words are numerically reformatted,
everything else passes through unchanged. -/
def restWord (w : Str) : Str := if matchDigit (headChar w) then numWord w else w

/-- `generate_sort_title` (lines 2309-2364): split the `title_sort` of
the title; numerically reformat a digit-leading first word; prepend the
sort-forcing word `/` when the (reformatted) first character is a
non-letter above `'A'` or strictly between `'9'` and `'A'`; capitalize
the first word; numerically reformat digit-leading later words; join
with single spaces. -/
def generate_sort_title (title : Str) : Str :=
  match title_sort_words title with
  | [] => []
  | w :: rest =>
    let w1 := if matchDigit (headChar w) then numWord w else w
    let pre : List Str :=
      if letter_or_symbol (headChar w1) ≠ [headChar w1] ∧
          (65 < (headChar w1).toNat ∨
            (57 < (headChar w1).toNat ∧ (headChar w1).toNat < 65)) then
        [['/']]
      else []
    joinSp (pre ++ [capitalize w1] ++ rest.map restWord)

/- ### C5: `detect_author_sort_mismatches` -/

/-- One element of the run's error/warning list: the `'Author Sort
mismatch'` header, or one mismatch message naming the display author and
the two conflicting sort values (row value first, anchor value second,
as formatted at lines 483-501). -/
inductive ErrEntry where
  | header : ErrEntry
  | mismatch : Str → Str → Str → ErrEntry
deriving DecidableEq

/-- The scanning loop of `detect_author_sort_mismatches` (lines 478-507)
over the remaining `(display, sort)` rows, carrying `current_author` and
the error list.  A same-display difference in strict (`mobi`) mode
appends the header and the message and raises; in permissive mode it
appends (header first if the list was empty) and `continue`s — leaving
`current_author` unchanged.  A different-display difference advances
`current_author`. -/
def detectLoop (isMobi : Bool) :
    (Str × Str) → List (Str × Str) → List ErrEntry →
    Except (List ErrEntry) (List ErrEntry)
  | _, [], errs => .ok errs
  | cur, a :: rest, errs =>
    if a ≠ cur then
      if a.1 = cur.1 then
        if isMobi then
          .error (errs ++ [.header, .mismatch a.1 a.2 cur.2])
        else
          detectLoop isMobi cur rest
            ((if errs = [] then errs ++ [ErrEntry.header] else errs) ++
              [.mismatch a.1 a.2 cur.2])
      else detectLoop isMobi a rest errs
    else detectLoop isMobi cur rest errs

/-- `detect_author_sort_mismatches` on the author-sorted `(display,
sort)` rows (the `sorted(...)` at line 474 orders rows by a key computed
from the display name and title only, so rows sharing a display name
are adjacent regardless of their stored sort values).  The index guard
`and i` is redundant: at `i = 0` the row equals `current_author`.  On an
empty list the source raises `IndexError`; callers guarantee nonempty
input. -/
def detect_author_sort_mismatches (isMobi : Bool) (rows : List (Str × Str)) :
    Except (List ErrEntry) (List ErrEntry) :=
  match rows with
  | [] => .ok []
  | a :: rest => detectLoop isMobi a rest []

/-- The mismatch list described by the claim's words: scan with an
anchor that advances only across a different-display row, recording a
triple for every same-display row that differs from the anchor. -/
def anchorMismatches : (Str × Str) → List (Str × Str) → List (Str × Str × Str)
  | _, [] => []
  | cur, a :: rest =>
    if a ≠ cur then
      if a.1 = cur.1 then (a.1, a.2, cur.2) :: anchorMismatches cur rest
      else anchorMismatches a rest
    else anchorMismatches cur rest

/-- The comparison rule the claim states: count the adjacent pairs of
rows that share a display name but differ in sort value. -/
def adjacentMismatchCount : List (Str × Str) → Nat
  | [] => 0
  | [_] => 0
  | a :: b :: rest =>
    (if a.1 = b.1 ∧ a.2 ≠ b.2 then 1 else 0) + adjacentMismatchCount (b :: rest)

/-- The mismatch messages contained in an error list. -/
def mismatchMsgs (errs : List ErrEntry) : List (Str × Str × Str) :=
  errs.filterMap (fun e =>
    match e with
    | .header => none
    | .mismatch a s1 s2 => some (a, s1, s2))

/-- The error entry built from one mismatch triple. -/
def mkMismatchEntry (m : Str × Str × Str) : ErrEntry :=
  .mismatch m.1 m.2.1 m.2.2

/- ### C7: `filter_genre_tags` -/

/-- `a <= b` for Python strings. -/
def pyStrLe (a b : Str) : Bool := !pyStrLt b a

/-- Insert into a `pyStrLe`-sorted list. -/
def insStr (x : Str) : List Str → List Str
  | [] => [x]
  | y :: ys => if pyStrLe x y then x :: y :: ys else y :: insStr x ys

/-- `all_genre_tags.sort()`: Python's ascending lexicographic sort. -/
def pySortStr (l : List Str) : List Str := l.foldr insStr []

/-- First-occurrence deduplication (keeps the earliest copy of each
element, in order). -/
def dedupFirst {α : Type} [DecidableEq α] : List α → List α
  | [] => []
  | x :: xs => x :: (dedupFirst xs).filter (fun y => y ≠ x)

/-- One `dict` insertion: an existing key has its value replaced in
place, a new key is appended. -/
def dictInsert (acc : List (Str × Str)) (kv : Str × Str) : List (Str × Str) :=
  if kv.1 ∈ acc.map Prod.fst then
    acc.map (fun e => if e.1 = kv.1 then (e.1, kv.2) else e)
  else acc ++ [kv]

/-- `dict(zip(friendly_tags, normalized_tags))`: association pairs with
unique keys, later values overriding earlier ones. -/
def pyDict (ps : List (Str × Str)) : List (Str × Str) := ps.foldl dictInsert []

/-- Dictionary lookup. -/
def dictGet (d : List (Str × Str)) (k : Str) : Option Str :=
  (d.find? (fun e => e.1 = k)).map (fun e => e.2)

/-- `filter_genre_tags` (lines 939-974): sort the library tags, skip
excluded tags and the literal one-space tag, pair each remaining
friendly tag with its normalized form (`norm` stands for the
`_normalize_tag` closure, whose transliteration is external), build the
genre dictionary, and emit one collision warning per normalized form
reached by more than one friendly tag.  Returns the dictionary and the
warned-about normalized forms. -/
def filter_genre_tags (norm : Str → Str) (allTags excluded : List Str) :
    List (Str × Str) × List Str :=
  let tags := pySortStr allTags
  let pairs := tags.filterMap (fun t =>
    if t ∈ excluded then none
    else if t = str " " then none
    else some (t, norm t))
  let normalized := pairs.map (fun p => p.2)
  (pyDict pairs, (dedupFirst normalized).filter (fun n => 1 < normalized.count n))

/- ### C10: the genre grouping loop of `generate_html_by_genres` -/

/-- Adding one matching book to the genre list (lines 1149-1166): when
the normalized tag already heads an entry, append the book to that entry
unless a book with the same title is already present; otherwise start a
new entry at the end of the list. -/
def addBookToGenre (gl : List (Str × List Book)) (g : Str) (b : Book) :
    List (Str × List Book) :=
  if g ∈ gl.map Prod.fst then
    gl.map (fun e =>
      if e.1 = g ∧ ¬ (e.2.any (fun x => x.title = b.title)) then (e.1, e.2 ++ [b])
      else e)
  else gl ++ [(g, [b])]

/-- The grouping double loop of `generate_html_by_genres` (lines
1130-1166): for each `(friendly, normalized)` pair of the genre
dictionary — iterated in icu-sorted key order, which the caller supplies
as the order of `dictPairs`, the value lookup being inlined — scan the
books and add each book carrying the friendly tag. -/
def generate_html_by_genres (dictPairs : List (Str × Str)) (books : List Book) :
    List (Str × List Book) :=
  dictPairs.foldl (fun gl fg =>
    books.foldl (fun gl2 b =>
      if fg.1 ∈ b.genres then addBookToGenre gl2 fg.2 b else gl2) gl) []

/-- Keep-first-by-title deduplication, accumulator form. -/
def dedupByTitleAux (acc : List Book) : List Book → List Book
  | [] => acc
  | b :: bs =>
    dedupByTitleAux
      (if acc.any (fun x => x.title = b.title) then acc else acc ++ [b]) bs

/-- Keep the first book of each title, in order. -/
def dedupByTitle (l : List Book) : List Book := dedupByTitleAux [] l

/-- The `(normalized, book)` addition events of the double loop, in
execution order. -/
def genreEvents (dictPairs : List (Str × Str)) (books : List Book) :
    List (Str × Book) :=
  dictPairs.flatMap (fun fg =>
    (books.filter (fun b => fg.1 ∈ b.genres)).map (fun b => (fg.2, b)))

/-- The books encountered for one normalized genre, in encounter order:
for each friendly tag mapping to it (in iteration order), the books
carrying that tag (in book order). -/
def encounterSeq (dictPairs : List (Str × Str)) (books : List Book) (g : Str) :
    List Book :=
  (dictPairs.filter (fun fg => fg.2 = g)).flatMap (fun fg =>
    books.filter (fun b => fg.1 ∈ b.genres))

/- ### C2: NCX navPoint construction (`generate_ncx_by_author`,
`generate_ncx_by_series`) -/

/-- One NCX navPoint: id, class attribute, the `playOrder` attribute if
one was ever assigned, and the appended children. -/
structure NavPoint where
  id : Str
  cls : Str
  playOrder : Option Nat
  children : List NavPoint

/-- `generate_ncx_by_author` (lines 1857-1934): build the section
navPoint with the current `play_order`, increment, then per author
append an article navPoint — the loop body assigns each new counter
value to `navPointTag` (the section) rather than to
`navPointByAuthorTag`, and increments.  Input `authors` carries the
`(anchor id, name)` of each author entry; returns the section node and
the final counter. -/
def generate_ncx_by_author (p0 : Nat) (authors : List (Str × Str)) :
    NavPoint × Nat :=
  let sec : NavPoint := ⟨str "authors-ID", str "section", some p0, []⟩
  authors.foldl (fun sp a =>
    let article : NavPoint := ⟨a.1 ++ str "authors-ID", str "article", none, []⟩
    ({ sp.1 with playOrder := some sp.2, children := sp.1.children ++ [article] },
      sp.2 + 1)) (sec, p0 + 1)

/-- `generate_ncx_by_series` (lines 1778-1855): identical structure; the
loop assigns each counter value to `navPointTag` (the section) and the
per-series article navPoint gets no `playOrder`. -/
def generate_ncx_by_series (p0 : Nat) (serieses : List (Str × Str)) :
    NavPoint × Nat :=
  let sec : NavPoint := ⟨str "byseries-ID", str "section", some p0, []⟩
  serieses.foldl (fun sp s =>
    let article : NavPoint := ⟨s.1 ++ str "Series-ID", str "article", none, []⟩
    ({ sp.1 with playOrder := some sp.2, children := sp.1.children ++ [article] },
      sp.2 + 1)) (sec, p0 + 1)

/- ### C1: OPF spine construction (`generate_opf`) versus NCX section
order (`build_sources`) -/

/-- `file[file.find('/')+1 : file.find('.')].lower()`, the manifest and
spine identifier derived from an HTML file path. -/
def idOfFile (f : Str) : Str :=
  lowerStr ((f.take (f.findIdx (fun c => c = '.'))).drop
    (f.findIdx (fun c => c = '/') + 1))

/-- `"content/Genre_%s.html" % tag`. -/
def genreFile (tag : Str) : Str := str "content/Genre_" ++ tag ++ str ".html"

/-- The spine idref list built by `generate_opf` (lines 2140-2206):
`html_filelist_1` entries, then one entry per genre file, then
`html_filelist_2` entries, then one `book<id>` entry per description
book. -/
def generate_opf_spine (filelist1 : List Str) (genreTags : List Str)
    (filelist2 : List Str) (bookIds : List Nat) : List Str :=
  filelist1.map idOfFile ++ genreTags.map (fun g => idOfFile (genreFile g)) ++
    filelist2.map idOfFile ++ bookIds.map (fun i => str "book" ++ natRepr i)

/-- `html_filelist_1` as populated by `build_sources`:
`generate_html_by_author` always appends `content/ByAuthor.html`;
`generate_html_by_series` appends `content/BySeries.html` exactly when
the catalog contains series books (it returns early otherwise).
`html_filelist_2` is never appended to. -/
def html_filelist_1 (hasSeriesBooks : Bool) : List Str :=
  [str "content/ByAuthor.html"] ++
    (if hasSeriesBooks then [str "content/BySeries.html"] else [])

/-- The catalog sections. -/
inductive CatSection where
  | authors : CatSection
  | series : CatSection
  | genres : CatSection
  | descriptions : CatSection
deriving DecidableEq

/-- Which section a spine idref belongs to. -/
def classifyIdref (id : Str) : CatSection :=
  if id = str "byauthor" then .authors
  else if id = str "byseries" then .series
  else if (str "genre_").isPrefixOf id then .genres
  else .descriptions

/-- The order of sections in the spine built by `generate_opf` for a
`build_sources` run: successive distinct sections of the spine idrefs. -/
def spine_section_order (hasSeriesBooks : Bool) (genreTags : List Str)
    (bookIds : List Nat) : List CatSection :=
  dedupFirst ((generate_opf_spine (html_filelist_1 hasSeriesBooks) genreTags []
    bookIds).map classifyIdref)

/-- The order in which `build_sources` (lines 260-266) appends sections
to the NCX navigation tree: Authors, then Descriptions, then Series when
series generation is enabled (`generate_html_by_series` has already
turned the flag off when no series books exist), then Genres when at
least one genre group exists (`generate_ncx_by_genre` returns before
appending anything when `self.genres` is empty). -/
def ncx_section_order (generateSeries hasSeriesBooks hasGenres : Bool) :
    List CatSection :=
  [.authors, .descriptions] ++
    (if generateSeries && hasSeriesBooks then [.series] else []) ++
    (if hasGenres then [.genres] else [])

/- ### C9: the thumbnail archive (`confirm_thumbs_archive`,
`generate_thumbnails`) -/

/-- The thumbs zip archive, a flat name-to-bytes store; a rewritten name
shadows the earlier member, so reads see the most recent write. -/
structure ThumbsArchive where
  entries : List (Str × Str)
deriving DecidableEq

/-- `zf.read(name)`, most recent write first. -/
def zipRead (a : ThumbsArchive) (k : Str) : Option Str :=
  (a.entries.find? (fun e => e.1 = k)).map (fun e => e.2)

/-- `zf.writestr(name, data)`. -/
def zipWrite (a : ThumbsArchive) (k v : Str) : ThumbsArchive :=
  ⟨(k, v) :: a.entries⟩

/-- The freshly (re)created archive: `ZipFile(..., 'w')` plus the
`"Catalog Thumbs Archive"` placeholder member. -/
def emptyThumbsArchive : ThumbsArchive :=
  ⟨[(str "Catalog Thumbs Archive", str "")]⟩

/-- `confirm_thumbs_archive` (lines 314-357), run before any per-item
lookup: with no readable archive (`none` also covers the corrupt-archive
path, which removes the file), create a fresh one; otherwise read the
stored `thumb_width` member (defaulting to `"-1"` when absent) and
recreate the archive empty when its float value differs from the
requested width.  `floatv` stands for Python's `float()` on the width
strings. -/
def confirm_thumbs_archive (floatv : Str → Rat) (existing : Option ThumbsArchive)
    (requested : Str) : ThumbsArchive :=
  match existing with
  | none => emptyThumbsArchive
  | some a =>
    let cached := (zipRead a (str "thumb_width")).getD (str "-1")
    if floatv cached ≠ floatv requested then emptyThumbsArchive else a

/-- The final step of `generate_thumbnails` (lines 2496-2499): write the
requested width under the reserved `thumb_width` member. -/
def generate_thumbnails_record_width (a : ThumbsArchive) (w : Str) :
    ThumbsArchive :=
  zipWrite a (str "thumb_width") w

/- ### Counterexamples and failing-input evaluations -/

/-- C1: the spine's section ordering does not mirror the navigation
tree's section ordering.  With no series, one genre tag and one
description book, the spine sections run Authors, Genres, Descriptions
while the NCX sections were appended as Authors, Descriptions, Genres. -/
theorem c1_spine_mirrors_ncx_counterexample :
    spine_section_order false [str "fiction"] [1] =
      [CatSection.authors, CatSection.genres, CatSection.descriptions] ∧
    ncx_section_order false false true =
      [CatSection.authors, CatSection.descriptions, CatSection.genres] ∧
    spine_section_order false [str "fiction"] [1] ≠
      ncx_section_order false false true := by
  refine ⟨by decide, by decide, by decide⟩

/-- C2: in `generate_ncx_by_author` and `generate_ncx_by_series` the
loop assigns each new counter value to the section navPoint (overwriting
it, so it ends at `initial + number of articles`) and the appended
article navPoints never receive a `playOrder`, contradicting the claim
that every appended node is assigned the current counter value.  The
counter itself is still incremented once per append. -/
theorem c2_playorder_misassigned :
    (generate_ncx_by_author 5 [(str "a1", str "AOne"),
      (str "a2", str "ATwo")]).1.playOrder = some 7 ∧
    ((generate_ncx_by_author 5 [(str "a1", str "AOne"),
      (str "a2", str "ATwo")]).1.children.map (fun c => c.playOrder)) =
        [none, none] ∧
    (generate_ncx_by_author 5 [(str "a1", str "AOne"),
      (str "a2", str "ATwo")]).2 = 8 ∧
    (generate_ncx_by_series 9 [(str "s1", str "Saga")]).1.playOrder = some 10 ∧
    ((generate_ncx_by_series 9 [(str "s1", str "Saga")]).1.children.map
      (fun c => c.playOrder)) = [none] ∧
    (generate_ncx_by_series 9 [(str "s1", str "Saga")]).2 = 11 := by
  exact ⟨rfl, rfl, rfl, rfl, rfl, rfl⟩

/-- C3: `generate_sort_title` does not prefix a sort-forcing symbol to
every symbol-led title — `"#1"` (leading `'#'`, neither digit nor
letter) passes through unchanged — and a symbol-led title does not sort
after every numeric-led title: the key of `"@Zebra"` orders before the
key of the ten-digit title `"1234567890"`, whose padded field has no
leading space. -/
theorem c3_symbol_sort_counterexample :
    generate_sort_title (str "#1") = str "#1" ∧
    headChar (generate_sort_title (str "#1")) = '#' ∧
    pyStrLt (generate_sort_title (str "@Zebra"))
      (generate_sort_title (str "1234567890")) = true := by
  exact ⟨rfl, rfl, rfl⟩

/-- C4: the numeric leading token is not zero-padded: `"2001: A Space
Odyssey"` produces a key whose integer field is space-padded
(right-justified in 10 characters), beginning with `' '`, not `'0'`. -/
theorem c4_numeric_padding_counterexample :
    generate_sort_title (str "2001: A Space Odyssey") =
      str "      2001: A Space Odyssey" ∧
    headChar (generate_sort_title (str "2001: A Space Odyssey")) = ' ' ∧
    headChar (generate_sort_title (str "2001: A Space Odyssey")) ≠ '0' := by
  refine ⟨rfl, rfl, by decide⟩

/-- C5: the scan does not compare only adjacent rows.  On the rows
`(A,s1), (A,s2), (A,s2)` (in author-key order; the sort key ignores the
stored sort value) only one adjacent pair differs, yet permissive mode
records two mismatch warnings, because after the first mismatch the
`continue` keeps `current_author` at the first row and the identical
third row is compared against it again. -/
theorem c5_adjacent_compare_counterexample :
    detect_author_sort_mismatches false
      [(str "A", str "s1"), (str "A", str "s2"), (str "A", str "s2")] =
      .ok [ErrEntry.header, .mismatch (str "A") (str "s2") (str "s1"),
        .mismatch (str "A") (str "s2") (str "s1")] ∧
    adjacentMismatchCount
      [(str "A", str "s1"), (str "A", str "s2"), (str "A", str "s2")] = 1 := by
  exact ⟨rfl, rfl⟩

/-- C6: on a single-row input the roll-up fold emits the author twice,
both times with book count 0 — the `i == 0 and len(authors) == 1` branch
appends before any increment and the `for/else` clause appends again
(`multiple_authors` is still false) — instead of the single entry with
count 1 the claim requires. -/
theorem c6_unique_author_rollup_bug :
    unique_authors_fold (fun s => s) [(str "Doe, J.", str "Doe, j.")] =
      [(str "Doe, J.", str "Doe, j.", 0), (str "Doe, J.", str "Doe, j.", 0)] := by
  exact rfl

/-- C7: a friendly tag equal to the literal one-space string is skipped
by `filter_genre_tags` even when it is not excluded: with library tags
`[" "]` and nothing excluded, the genre index has no keys at all. -/
theorem c7_genre_index_counterexample :
    (filter_genre_tags (fun t => t) [str " "] []).1 = [] ∧
    dictGet (filter_genre_tags (fun t => t) [str " "] []).1 (str " ") = none := by
  exact ⟨rfl, rfl⟩

/- ### C9: thumbnail archive invalidation and width recording -/

/-- C9: when the archive's stored width differs (as a float value) from
the requested width, `confirm_thumbs_archive` recreates the archive so
that every per-item key misses on the subsequent lookups; at the end of
a thumbnail population pass the requested width is recorded under the
reserved key, and a later `confirm_thumbs_archive` with the same
requested width keeps the archive intact. -/
theorem c9_thumbs_archive (floatv : Str → Rat) (a : ThumbsArchive) (w k : Str)
    (hdiff : floatv ((zipRead a (str "thumb_width")).getD (str "-1")) ≠ floatv w)
    (hk : k ≠ str "Catalog Thumbs Archive") :
    zipRead (confirm_thumbs_archive floatv (some a) w) k = none ∧
    zipRead (generate_thumbnails_record_width a w) (str "thumb_width") = some w ∧
    confirm_thumbs_archive floatv (some (generate_thumbnails_record_width a w)) w
      = generate_thumbnails_record_width a w := by
  refine ⟨?_, ?_, ?_⟩
  · have h1 : confirm_thumbs_archive floatv (some a) w = emptyThumbsArchive := by
      simp only [confirm_thumbs_archive, if_pos hdiff]
    rw [h1]
    simp only [zipRead, emptyThumbsArchive, List.find?]
    have : ((str "Catalog Thumbs Archive", str "").1 = k) = False := by
      simp [Ne.symm hk]
    simp [this]
  · simp [zipRead, generate_thumbnails_record_width, zipWrite, List.find?]
  · have h2 : zipRead (generate_thumbnails_record_width a w) (str "thumb_width")
        = some w := by
      simp [zipRead, generate_thumbnails_record_width, zipWrite, List.find?]
    simp [confirm_thumbs_archive, h2]

/-- Witness for C9 at a concrete archive holding width `"1.0"` and one
cached item, with requested width `"1.2"`. -/
theorem c9_thumbs_archive_witness :
    zipRead
      (confirm_thumbs_archive (fun s => if s = str "1.0" then 1 else 2)
        (some ⟨[(str "thumb_width", str "1.0"), (str "u1deadbeef", str "IMG")]⟩)
        (str "1.2"))
      (str "u1deadbeef") = none ∧
    zipRead
      (generate_thumbnails_record_width
        ⟨[(str "thumb_width", str "1.0"), (str "u1deadbeef", str "IMG")]⟩
        (str "1.2"))
      (str "thumb_width") = some (str "1.2") := by
  have h := c9_thumbs_archive (fun s => if s = str "1.0" then 1 else 2)
    ⟨[(str "thumb_width", str "1.0"), (str "u1deadbeef", str "IMG")]⟩
    (str "1.2") (str "u1deadbeef") (by decide) (by decide)
  exact ⟨h.1, h.2.1⟩

/- ### C8: relisting of multi-author books -/

theorem cloneIter_length (ats : Str → Str) (b : Book) :
    ∀ (k : Nat) (cur : List Str), (cloneIter ats b k cur).length = k := by
  intro k
  induction k with
  | zero => intro cur; rfl
  | succ n ih => intro cur; simp [cloneIter, ih]

theorem rot1_rotN (xs : List Str) (j : Nat) : rot1 (rotN j xs) = rotN (j + 1) xs := by
  simp [rotN, Function.iterate_succ_apply']

theorem cloneIter_eq_range (ats : Str → Str) (b : Book) (xs : List Str) :
    ∀ (k j : Nat), cloneIter ats b k (rotN j xs) =
      (List.range k).map (fun i => mkClone ats b (rotN (j + i + 1) xs)) := by
  intro k
  induction k with
  | zero => intro j; rfl
  | succ n ih =>
    intro j
    show mkClone ats b (rot1 (rotN j xs)) ::
        cloneIter ats b n (rot1 (rotN j xs)) = _
    rw [rot1_rotN, ih (j + 1), List.range_succ_eq_map]
    simp only [List.map_cons, List.map_map]
    refine congrArg₂ _ (by norm_num) ?_
    refine List.map_congr_left (fun i _ => ?_)
    have harith : j + 1 + i + 1 = j + (i + 1) + 1 := by omega
    simp [Function.comp, harith]

theorem rotN_eq_drop_take (xs : List Str) :
    ∀ (m : Nat), m ≤ xs.length → rotN m xs = xs.drop m ++ xs.take m := by
  intro m
  induction m with
  | zero => intro _; simp [rotN]
  | succ n ih =>
    intro h
    have hn : n < xs.length := Nat.lt_of_succ_le h
    have h1 : rotN (n + 1) xs = rot1 (rotN n xs) := (rot1_rotN xs n).symm
    rw [h1, ih (Nat.le_of_lt hn), List.drop_eq_getElem_cons hn]
    show (xs.drop (n + 1) ++ xs.take n) ++ [xs[n]] = _
    rw [List.take_succ, List.getElem?_eq_getElem hn]
    simp

theorem rotN_head (xs : List Str) (m : Nat) (h : m < xs.length) :
    (rotN m xs).head? = xs[m]? := by
  rw [rotN_eq_drop_take xs m (Nat.le_of_lt h), List.drop_eq_getElem_cons h]
  simp [List.getElem?_eq_getElem h]

theorem flatMap_congr_local {α β : Type} (l : List α) (f g : α → List β)
    (h : ∀ x ∈ l, f x = g x) : l.flatMap f = l.flatMap g := by
  induction l with
  | nil => rfl
  | cons a t ih =>
    simp only [List.flatMap_cons]
    rw [h a (List.mem_cons_self a t), ih (fun x hx => h x (List.mem_cons_of_mem a hx))]

theorem length_flatMap_local {α β : Type} (l : List α) (f : α → List β) :
    (l.flatMap f).length = (l.map (fun x => (f x).length)).sum := by
  induction l with
  | nil => rfl
  | cons a t ih => simp [List.flatMap_cons, ih]

theorem filter_map_sum_local (p : Book → Bool) (g : Book → Nat) (l : List Book) :
    ((l.filter p).map g).sum = (l.map (fun b => if p b then g b else 0)).sum := by
  induction l with
  | nil => rfl
  | cons a t ih =>
    by_cases h : p a
    · simp [List.filter_cons, h, ih]
    · simp [List.filter_cons, h, ih]

/-- C8: `relist_multiple_authors` keeps every original record unmodified
as a prefix; the appended part consists, per record with more than one
credited author, of one clone per additional author whose author list is
the `(k+1)`-fold rotation of the original (so each co-author in turn is
first-listed) and whose `author_sort` is the `' & '`-join of the
computed sort values of the rotated list; consequently the output length
is the input length plus `sum(len(authors)-1)` over multi-author
records. -/
theorem c8_relist_multiple_authors (ats : Str → Str) (books : List Book) :
    (relist_multiple_authors ats books).length = books.length + extraAuthors books ∧
    (relist_multiple_authors ats books).take books.length = books ∧
    (relist_multiple_authors ats books).drop books.length =
      (books.filter (fun b => 1 < b.authors.length)).flatMap (fun b =>
        (List.range (b.authors.length - 1)).map (fun k =>
          mkClone ats b (rotN (k + 1) b.authors))) ∧
    (∀ b ∈ books, ∀ k : Nat, k + 1 < b.authors.length →
      (rotN (k + 1) b.authors).head? = b.authors[k + 1]?) := by
  have hclones : (books.filter (fun b => 1 < b.authors.length)).flatMap
      (fun b => cloneIter ats b (b.authors.length - 1) b.authors) =
      (books.filter (fun b => 1 < b.authors.length)).flatMap (fun b =>
        (List.range (b.authors.length - 1)).map (fun k =>
          mkClone ats b (rotN (k + 1) b.authors))) := by
    refine flatMap_congr_local _ _ _ (fun b _ => ?_)
    have h0 : b.authors = rotN 0 b.authors := by simp [rotN]
    calc cloneIter ats b (b.authors.length - 1) b.authors
        = cloneIter ats b (b.authors.length - 1) (rotN 0 b.authors) := by rw [← h0]
      _ = (List.range (b.authors.length - 1)).map
            (fun i => mkClone ats b (rotN (0 + i + 1) b.authors)) :=
          cloneIter_eq_range ats b b.authors (b.authors.length - 1) 0
      _ = (List.range (b.authors.length - 1)).map
            (fun k => mkClone ats b (rotN (k + 1) b.authors)) := by
          refine List.map_congr_left (fun i _ => ?_)
          norm_num
  refine ⟨?_, ?_, ?_, ?_⟩
  · show (books ++ _).length = _
    rw [List.length_append, length_flatMap_local]
    have : ((books.filter (fun b => 1 < b.authors.length)).map
        (fun b => (cloneIter ats b (b.authors.length - 1) b.authors).length)) =
        ((books.filter (fun b => 1 < b.authors.length)).map
          (fun b => b.authors.length - 1)) := by
      refine List.map_congr_left (fun b _ => ?_)
      exact cloneIter_length ats b _ _
    rw [this, filter_map_sum_local (fun b => 1 < b.authors.length)
      (fun b => b.authors.length - 1) books]
    simp only [extraAuthors, decide_eq_true_eq]
  · exact List.take_left books _
  · show (books ++ _).drop books.length = _
    rw [List.drop_left books _]
    exact hclones
  · intro b _ k hk
    exact rotN_head b.authors (k + 1) hk

/-- Witness for C8 on one three-author book: the relisted list has three
entries and the first clone's rotation lists the second co-author
first. -/
theorem c8_relist_multiple_authors_witness :
    (relist_multiple_authors (fun s => s)
      [⟨1, str "T", str "X & Y & Z", [str "X", str "Y", str "Z"], str "x",
        none, []⟩]).length = 3 ∧
    (rotN 1 [str "X", str "Y", str "Z"]).head? = some (str "Y") := by
  have h := c8_relist_multiple_authors (fun s => s)
    [⟨1, str "T", str "X & Y & Z", [str "X", str "Y", str "Z"], str "x", none, []⟩]
  refine ⟨h.1.trans (by decide), ?_⟩
  have h2 := h.2.2.2
    ⟨1, str "T", str "X & Y & Z", [str "X", str "Y", str "Z"], str "x", none, []⟩
    (by decide) 0 (by decide)
  exact h2.trans (by decide)

/- ### C5: the mismatch scan -/

theorem detectLoop_false_ne_nil (rest : List (Str × Str)) :
    ∀ (cur : Str × Str) (errs : List ErrEntry), errs ≠ [] →
      detectLoop false cur rest errs =
        .ok (errs ++ (anchorMismatches cur rest).map mkMismatchEntry) := by
  induction rest with
  | nil => intro cur errs _; simp [detectLoop, anchorMismatches]
  | cons a t ih =>
    intro cur errs herr
    by_cases hac : a = cur
    · simp only [detectLoop, anchorMismatches, hac, ne_eq, not_true_eq_false,
        if_false, ite_self]
      exact ih cur errs herr
    · have hne : a ≠ cur := hac
      by_cases hd : a.1 = cur.1
      · simp only [detectLoop, anchorMismatches, if_pos hne, if_pos hd,
          Bool.false_eq_true, if_false, if_neg herr]
        rw [ih cur (errs ++ [ErrEntry.mismatch a.1 a.2 cur.2]) (by simp)]
        simp [mkMismatchEntry]
      · simp only [detectLoop, anchorMismatches, if_pos hne, if_neg hd]
        exact ih a errs herr

theorem detectLoop_false_nil (rest : List (Str × Str)) :
    ∀ (cur : Str × Str),
      detectLoop false cur rest [] =
        .ok (if anchorMismatches cur rest = [] then []
          else ErrEntry.header :: (anchorMismatches cur rest).map mkMismatchEntry) := by
  induction rest with
  | nil => intro cur; simp [detectLoop, anchorMismatches]
  | cons a t ih =>
    intro cur
    by_cases hac : a = cur
    · simp only [detectLoop, anchorMismatches, hac, ne_eq, not_true_eq_false,
        if_false, ite_self]
      exact ih cur
    · have hne : a ≠ cur := hac
      by_cases hd : a.1 = cur.1
      · simp only [detectLoop, anchorMismatches, if_pos hne, if_pos hd,
          Bool.false_eq_true, if_false, if_pos rfl, if_true]
        rw [detectLoop_false_ne_nil t cur
          (([] ++ [ErrEntry.header]) ++ [ErrEntry.mismatch a.1 a.2 cur.2]) (by simp)]
        rw [if_neg (List.cons_ne_nil _ _)]
        simp [mkMismatchEntry]
      · simp only [detectLoop, anchorMismatches, if_pos hne, if_neg hd]
        exact ih a

theorem detectLoop_true (rest : List (Str × Str)) :
    ∀ (cur : Str × Str) (errs : List ErrEntry),
      detectLoop true cur rest errs =
        (match anchorMismatches cur rest with
         | [] => .ok errs
         | m :: _ => .error (errs ++ [ErrEntry.header, mkMismatchEntry m])) := by
  induction rest with
  | nil => intro cur errs; simp [detectLoop, anchorMismatches]
  | cons a t ih =>
    intro cur errs
    by_cases hac : a = cur
    · simp only [detectLoop, anchorMismatches, hac, ne_eq, not_true_eq_false,
        if_false, ite_self]
      exact ih cur errs
    · have hne : a ≠ cur := hac
      by_cases hd : a.1 = cur.1
      · simp only [detectLoop, anchorMismatches, if_pos hne, if_pos hd, if_true]
        simp [mkMismatchEntry]
      · simp only [detectLoop, anchorMismatches, if_pos hne, if_neg hd]
        exact ih a errs

theorem anchorMismatches_mem (rest : List (Str × Str)) :
    ∀ (cur : Str × Str), ∀ m ∈ anchorMismatches cur rest,
      m.2.1 ≠ m.2.2 ∧ (m.1, m.2.1) ∈ rest ∧
        ((m.1, m.2.2) = cur ∨ (m.1, m.2.2) ∈ rest) := by
  induction rest with
  | nil => intro cur m hm; simp [anchorMismatches] at hm
  | cons a t ih =>
    intro cur m hm
    by_cases hac : a = cur
    · simp only [anchorMismatches, hac] at hm
      rw [if_neg (show ¬ (cur ≠ cur) by simp)] at hm
      obtain ⟨h1, h2, h3⟩ := ih cur m hm
      exact ⟨h1, List.mem_cons_of_mem a h2,
        h3.imp id (List.mem_cons_of_mem a)⟩
    · have hne : a ≠ cur := hac
      by_cases hd : a.1 = cur.1
      · simp only [anchorMismatches, if_pos hne, if_pos hd, List.mem_cons] at hm
        rcases hm with hm | hm
        · subst hm
          refine ⟨?_, ?_, ?_⟩
          · intro hsnd
            exact hne (Prod.ext hd hsnd)
          · show (a.1, a.2) ∈ a :: t
            simp
          · left
            show (a.1, cur.2) = cur
            rw [hd]
        · obtain ⟨h1, h2, h3⟩ := ih cur m hm
          exact ⟨h1, List.mem_cons_of_mem a h2,
            h3.imp id (List.mem_cons_of_mem a)⟩
      · simp only [anchorMismatches, if_pos hne, if_neg hd] at hm
        obtain ⟨h1, h2, h3⟩ := ih a m hm
        refine ⟨h1, List.mem_cons_of_mem a h2, Or.inr ?_⟩
        rcases h3 with h3 | h3
        · rw [h3]; simp
        · exact List.mem_cons_of_mem a h3

/-- C5 (amended): the scan compares each row against an anchor that
advances only across a different-display row (a permissive mismatch
keeps the anchor); in permissive mode it returns the full anchor-based
mismatch list (header first) without aborting, in strict (`mobi`) mode
it aborts at the first anchor mismatch with the header and exactly that
message; and every recorded mismatch relates two rows of the input that
share one display name and differ in sort value — never rows with
different display names. -/
theorem c5_mismatch_scan_amended (a0 : Str × Str) (rest : List (Str × Str)) :
    detect_author_sort_mismatches false (a0 :: rest) =
      .ok (if anchorMismatches a0 rest = [] then []
        else ErrEntry.header :: (anchorMismatches a0 rest).map mkMismatchEntry) ∧
    detect_author_sort_mismatches true (a0 :: rest) =
      (match anchorMismatches a0 rest with
       | [] => .ok []
       | m :: _ => .error [ErrEntry.header, mkMismatchEntry m]) ∧
    ∀ m ∈ anchorMismatches a0 rest,
      m.2.1 ≠ m.2.2 ∧ (m.1, m.2.1) ∈ a0 :: rest ∧ (m.1, m.2.2) ∈ a0 :: rest := by
  refine ⟨detectLoop_false_nil rest a0, ?_, ?_⟩
  · show detectLoop true a0 rest [] = _
    rw [detectLoop_true rest a0 []]
    cases anchorMismatches a0 rest with
    | nil => rfl
    | cons m ms => simp
  · intro m hm
    obtain ⟨h1, h2, h3⟩ := anchorMismatches_mem rest a0 m hm
    refine ⟨h1, List.mem_cons_of_mem a0 h2, ?_⟩
    rcases h3 with h3 | h3
    · rw [h3]; simp
    · exact List.mem_cons_of_mem a0 h3

/-- Witness for C5 on the spec's scenario: two rows with display `A`
and sort values `s1`, `s2`. -/
theorem c5_mismatch_scan_witness :
    detect_author_sort_mismatches false
      [(str "A", str "s1"), (str "A", str "s2")] =
      .ok [ErrEntry.header, ErrEntry.mismatch (str "A") (str "s2") (str "s1")] ∧
    detect_author_sort_mismatches true
      [(str "A", str "s1"), (str "A", str "s2")] =
      .error [ErrEntry.header, ErrEntry.mismatch (str "A") (str "s2") (str "s1")] ∧
    str "s2" ≠ str "s1" := by
  have h := c5_mismatch_scan_amended (str "A", str "s1") [(str "A", str "s2")]
  refine ⟨h.1.trans (by rfl), h.2.1.trans (by rfl), ?_⟩
  exact (h.2.2 (str "A", str "s2", str "s1") (by decide)).1

/- ### C7: the genre index -/

theorem mem_insStr (x : Str) : ∀ (l : List Str) (a : Str),
    a ∈ insStr x l ↔ a = x ∨ a ∈ l := by
  intro l
  induction l with
  | nil => intro a; simp [insStr]
  | cons y ys ih =>
    intro a
    by_cases h : pyStrLe x y
    · simp [insStr, h]
    · simp only [insStr, if_neg h, List.mem_cons, ih a]
      tauto

theorem mem_pySortStr (l : List Str) (a : Str) : a ∈ pySortStr l ↔ a ∈ l := by
  induction l with
  | nil => simp [pySortStr]
  | cons x xs ih =>
    show a ∈ insStr x (pySortStr xs) ↔ _
    rw [mem_insStr x (pySortStr xs) a]
    simp [ih]

theorem dictInsert_keys (acc : List (Str × Str)) (kv : Str × Str) :
    (dictInsert acc kv).map Prod.fst =
      if kv.1 ∈ acc.map Prod.fst then acc.map Prod.fst
      else acc.map Prod.fst ++ [kv.1] := by
  by_cases h : kv.1 ∈ acc.map Prod.fst
  · rw [if_pos h]
    simp only [dictInsert, if_pos h, List.map_map]
    refine List.map_congr_left (fun e _ => ?_)
    by_cases he : e.1 = kv.1 <;> simp [he]
  · rw [if_neg h]
    simp [dictInsert, if_neg h]

theorem pyDictAux_keys_nodup : ∀ (ps : List (Str × Str)) (acc : List (Str × Str)),
    (acc.map Prod.fst).Nodup → ((ps.foldl dictInsert acc).map Prod.fst).Nodup := by
  intro ps
  induction ps with
  | nil => intro acc h; exact h
  | cons kv t ih =>
    intro acc h
    refine ih (dictInsert acc kv) ?_
    rw [dictInsert_keys]
    by_cases hm : kv.1 ∈ acc.map Prod.fst
    · rw [if_pos hm]; exact h
    · rw [if_neg hm]
      simp [List.nodup_append, h, hm]

theorem pyDictAux_keys_mem : ∀ (ps : List (Str × Str)) (acc : List (Str × Str))
    (k : Str), k ∈ (ps.foldl dictInsert acc).map Prod.fst ↔
      k ∈ acc.map Prod.fst ∨ k ∈ ps.map Prod.fst := by
  intro ps
  induction ps with
  | nil => intro acc k; simp
  | cons kv t ih =>
    intro acc k
    show k ∈ ((t.foldl dictInsert (dictInsert acc kv)).map Prod.fst) ↔ _
    rw [ih (dictInsert acc kv) k, dictInsert_keys]
    by_cases hm : kv.1 ∈ acc.map Prod.fst
    · rw [if_pos hm]
      simp only [List.map_cons, List.mem_cons]
      constructor
      · rintro (h | h)
        · exact Or.inl h
        · exact Or.inr (Or.inr h)
      · rintro (h | h | h)
        · exact Or.inl h
        · rw [h]; exact Or.inl hm
        · exact Or.inr h
    · rw [if_neg hm]
      simp only [List.mem_append, List.mem_singleton, List.map_cons,
        List.mem_cons]
      tauto

theorem pyDictAux_values (norm : Str → Str) :
    ∀ (ps : List (Str × Str)) (acc : List (Str × Str)),
      (∀ e ∈ acc, e.2 = norm e.1) → (∀ e ∈ ps, e.2 = norm e.1) →
      ∀ e ∈ ps.foldl dictInsert acc, e.2 = norm e.1 := by
  intro ps
  induction ps with
  | nil => intro acc hacc _ e he; exact hacc e he
  | cons kv t ih =>
    intro acc hacc hps e he
    refine ih (dictInsert acc kv) ?_ (fun x hx => hps x (List.mem_cons_of_mem kv hx)) e he
    intro x hx
    have hkv : kv.2 = norm kv.1 := hps kv (List.mem_cons_self kv t)
    by_cases hm : kv.1 ∈ acc.map Prod.fst
    · simp only [dictInsert, if_pos hm] at hx
      obtain ⟨y, hy, hxy⟩ := List.mem_map.mp hx
      by_cases hy1 : y.1 = kv.1
      · rw [if_pos hy1] at hxy
        rw [← hxy]
        show kv.2 = norm y.1
        rw [hy1, hkv]
      · rw [if_neg hy1] at hxy
        rw [← hxy]
        exact hacc y hy
    · simp only [dictInsert, if_neg hm] at hx
      rcases List.mem_append.mp hx with hx | hx
      · exact hacc x hx
      · rw [List.mem_singleton.mp hx]; exact hkv

theorem dictGet_of_mem_uniform (norm : Str → Str) (d : List (Str × Str)) (k : Str)
    (hk : k ∈ d.map Prod.fst) (hv : ∀ e ∈ d, e.2 = norm e.1) :
    dictGet d k = some (norm k) := by
  have hsome : (d.find? (fun e => e.1 = k)).isSome := by
    rw [List.find?_isSome]
    obtain ⟨e, he, hek⟩ := List.mem_map.mp hk
    exact ⟨e, he, by simp [hek]⟩
  obtain ⟨a, ha⟩ := Option.isSome_iff_exists.mp hsome
  have hak : a.1 = k := by
    have := List.find?_some ha
    simpa using this
  have hamem : a ∈ d := List.mem_of_find?_eq_some ha
  show ((d.find? (fun e => e.1 = k)).map (fun e => e.2)) = some (norm k)
  rw [ha]
  show some a.2 = some (norm k)
  rw [hv a hamem, hak]

theorem two_count : ∀ (l : List (Str × Str)) (t1 t2 n : Str), t1 ≠ t2 →
    (t1, n) ∈ l → (t2, n) ∈ l → 2 ≤ (l.map Prod.snd).count n := by
  intro l
  induction l with
  | nil => intro t1 t2 n _ h1 _; simp at h1
  | cons a t ih =>
    intro t1 t2 n h12 h1 h2
    rcases List.mem_cons.mp h1 with h1 | h1
    · rcases List.mem_cons.mp h2 with h2 | h2
      · exfalso
        apply h12
        have := h1.trans h2.symm
        exact congrArg Prod.fst this
      · have hn : n ∈ t.map Prod.snd :=
          List.mem_map.mpr ⟨(t2, n), h2, rfl⟩
        have hc : 1 ≤ (t.map Prod.snd).count n := List.count_pos_iff.mpr hn
        have ha : a.2 = n := by rw [← h1]
        rw [List.map_cons, ha, List.count_cons_self]
        omega
    · rcases List.mem_cons.mp h2 with h2 | h2
      · have hn : n ∈ t.map Prod.snd :=
          List.mem_map.mpr ⟨(t1, n), h1, rfl⟩
        have hc : 1 ≤ (t.map Prod.snd).count n := List.count_pos_iff.mpr hn
        have ha : a.2 = n := by rw [← h2]
        rw [List.map_cons, ha, List.count_cons_self]
        omega
      · have := ih t1 t2 n h12 h1 h2
        rw [List.map_cons, List.count_cons]
        omega

theorem countP_eq_one_of_nodup {α : Type} [DecidableEq α] :
    ∀ (l : List α), l.Nodup → ∀ a ∈ l, l.countP (fun x => x = a) = 1 := by
  intro l
  induction l with
  | nil => intro _ a ha; cases ha
  | cons x xs ih =>
    intro hnd a ha
    rw [List.countP_cons]
    rcases List.mem_cons.mp ha with h | h
    · have hx0 : x ∉ xs := (List.nodup_cons.mp hnd).1
      have hz : xs.countP (fun y => decide (y = a)) = 0 := by
        refine List.countP_eq_zero.mpr (fun y hy => ?_)
        simp only [decide_eq_true_eq]
        intro hya
        have hyx : y = x := hya.trans h
        exact hx0 (by rw [← hyx]; exact hy)
      rw [hz]
      simp [← h]
    · have hx0 : x ∉ xs := (List.nodup_cons.mp hnd).1
      have hxa : ¬ (x = a) := fun hxa => hx0 (hxa ▸ h)
      rw [ih (List.nodup_cons.mp hnd).2 a h]
      simp [hxa]

theorem mem_dedupFirst {α : Type} [DecidableEq α] :
    ∀ (l : List α) (a : α), a ∈ dedupFirst l ↔ a ∈ l := by
  intro l
  induction l with
  | nil => intro a; simp [dedupFirst]
  | cons x xs ih =>
    intro a
    simp only [dedupFirst, List.mem_cons, List.mem_filter, ih a, ne_eq,
      decide_not]
    by_cases hax : a = x
    · simp [hax]
    · simp [hax, ih]

/-- C7 (amended): every friendly tag that is neither excluded nor the
literal one-space tag appears as a key of the genre index exactly once
and maps to its normalized form; and when two distinct such tags
normalize to the same identifier, the collision warning list is
nonempty while both tags remain queryable keys mapping to that same
identifier. -/
theorem c7_genre_index_amended (norm : Str → Str) (allTags excluded : List Str) :
    (∀ t, t ∈ allTags → t ∉ excluded → t ≠ str " " →
      ((filter_genre_tags norm allTags excluded).1.map Prod.fst).countP
        (fun k => k = t) = 1 ∧
      dictGet (filter_genre_tags norm allTags excluded).1 t = some (norm t)) ∧
    (∀ t1 t2, t1 ∈ allTags → t2 ∈ allTags → t1 ∉ excluded → t2 ∉ excluded →
      t1 ≠ str " " → t2 ≠ str " " → t1 ≠ t2 → norm t1 = norm t2 →
      (filter_genre_tags norm allTags excluded).2 ≠ [] ∧
      dictGet (filter_genre_tags norm allTags excluded).1 t1 = some (norm t1) ∧
      dictGet (filter_genre_tags norm allTags excluded).1 t2 = some (norm t1)) := by
  have hpair : ∀ t, t ∈ allTags → t ∉ excluded → t ≠ str " " →
      (t, norm t) ∈ (pySortStr allTags).filterMap (fun t =>
        if t ∈ excluded then none
        else if t = str " " then none
        else some (t, norm t)) := by
    intro t ht hex hsp
    refine List.mem_filterMap.mpr ⟨t, (mem_pySortStr allTags t).mpr ht, ?_⟩
    rw [if_neg hex, if_neg hsp]
  have hvals : ∀ e ∈ (pySortStr allTags).filterMap (fun t =>
      if t ∈ excluded then none
      else if t = str " " then none
      else some (t, norm t)), e.2 = norm e.1 := by
    intro e he
    obtain ⟨a, _, ha⟩ := List.mem_filterMap.mp he
    by_cases h1 : a ∈ excluded
    · rw [if_pos h1] at ha; cases ha
    · rw [if_neg h1] at ha
      by_cases h2 : a = str " "
      · rw [if_pos h2] at ha; cases ha
      · rw [if_neg h2] at ha
        cases ha
        rfl
  have hget : ∀ t, t ∈ allTags → t ∉ excluded → t ≠ str " " →
      dictGet (filter_genre_tags norm allTags excluded).1 t = some (norm t) := by
    intro t ht hex hsp
    have hkey : t ∈ ((filter_genre_tags norm allTags excluded).1.map Prod.fst) := by
      show t ∈ ((List.foldl dictInsert [] _).map Prod.fst)
      rw [pyDictAux_keys_mem _ [] t]
      refine Or.inr (List.mem_map.mpr ⟨(t, norm t), hpair t ht hex hsp, rfl⟩)
    refine dictGet_of_mem_uniform norm _ t hkey ?_
    exact pyDictAux_values norm _ [] (by simp) hvals
  refine ⟨?_, ?_⟩
  · intro t ht hex hsp
    refine ⟨?_, hget t ht hex hsp⟩
    have hkey : t ∈ ((filter_genre_tags norm allTags excluded).1.map Prod.fst) := by
      show t ∈ ((List.foldl dictInsert [] _).map Prod.fst)
      rw [pyDictAux_keys_mem _ [] t]
      refine Or.inr (List.mem_map.mpr ⟨(t, norm t), hpair t ht hex hsp, rfl⟩)
    have hnd : ((filter_genre_tags norm allTags excluded).1.map Prod.fst).Nodup :=
      pyDictAux_keys_nodup _ [] (by simp)
    exact countP_eq_one_of_nodup _ hnd t hkey
  · intro t1 t2 h1 h2 he1 he2 hs1 hs2 h12 hnn
    have hC : dictGet (filter_genre_tags norm allTags excluded).1 t2 =
        some (norm t1) := by
      rw [hnn]
      exact hget t2 h2 he2 hs2
    refine ⟨?_, hget t1 h1 he1 hs1, hC⟩
    have hp1 := hpair t1 h1 he1 hs1
    have hp2 := hpair t2 h2 he2 hs2
    rw [← hnn] at hp2
    have hcount := two_count _ t1 t2 (norm t1) h12 hp1 hp2
    set pairs := (pySortStr allTags).filterMap (fun t =>
      if t ∈ excluded then none
      else if t = str " " then none
      else some (t, norm t)) with hpairs
    have hmemn : norm t1 ∈ pairs.map Prod.snd :=
      List.mem_map.mpr ⟨(t1, norm t1), hp1, rfl⟩
    have hmemw : norm t1 ∈ (filter_genre_tags norm allTags excluded).2 := by
      show norm t1 ∈ (dedupFirst (pairs.map (fun p => p.2))).filter
        (fun n => 1 < (pairs.map (fun p => p.2)).count n)
      refine List.mem_filter.mpr ⟨?_, ?_⟩
      · rw [mem_dedupFirst]
        simpa using hmemn
      · simp only [decide_eq_true_eq]
        have : (pairs.map (fun p => p.2)).count (norm t1) =
            (pairs.map Prod.snd).count (norm t1) := rfl
        omega
    exact List.ne_nil_of_mem hmemw

/-- Witness for C7 on the spec's scenario: `"Sci-Fi"` and `"SciFi"`
both normalize to `"scifi"`. -/
theorem c7_genre_index_witness :
    (filter_genre_tags (fun t => lowerStr (t.filter (fun c => c ≠ '-')))
      [str "Sci-Fi", str "SciFi"] []).2 ≠ [] ∧
    dictGet (filter_genre_tags (fun t => lowerStr (t.filter (fun c => c ≠ '-')))
      [str "Sci-Fi", str "SciFi"] []).1 (str "Sci-Fi") = some (str "scifi") ∧
    ((filter_genre_tags (fun t => lowerStr (t.filter (fun c => c ≠ '-')))
      [str "Sci-Fi", str "SciFi"] []).1.map Prod.fst).countP
        (fun k => k = str "SciFi") = 1 := by
  have h := c7_genre_index_amended
    (fun t => lowerStr (t.filter (fun c => c ≠ '-')))
    [str "Sci-Fi", str "SciFi"] []
  have h2 := h.2 (str "Sci-Fi") (str "SciFi") (by decide) (by decide)
    (by decide) (by decide) (by decide) (by decide) (by decide) (by decide)
  have h1 := h.1 (str "SciFi") (by decide) (by decide) (by decide)
  exact ⟨h2.1, h2.2.1.trans (by decide), h1.1⟩

/- ### C10: genre grouping refinement -/

theorem genre_inner_fold (fg : Str × Str) (books : List Book) :
    ∀ gl, books.foldl (fun gl2 b =>
        if fg.1 ∈ b.genres then addBookToGenre gl2 fg.2 b else gl2) gl =
      ((books.filter (fun b => fg.1 ∈ b.genres)).map (fun b => (fg.2, b))).foldl
        (fun gl e => addBookToGenre gl e.1 e.2) gl := by
  induction books with
  | nil => intro gl; rfl
  | cons b t ih =>
    intro gl
    by_cases hb : fg.1 ∈ b.genres
    · rw [List.foldl_cons, if_pos hb,
        List.filter_cons_of_pos (by simpa using hb), List.map_cons,
        List.foldl_cons]
      exact ih (addBookToGenre gl fg.2 b)
    · rw [List.foldl_cons, if_neg hb,
        List.filter_cons_of_neg (by simpa using hb)]
      exact ih gl

theorem genres_eq_events_fold_aux (books : List Book) :
    ∀ (dp : List (Str × Str)) (gl : List (Str × List Book)),
      dp.foldl (fun gl fg => books.foldl (fun gl2 b =>
        if fg.1 ∈ b.genres then addBookToGenre gl2 fg.2 b else gl2) gl) gl =
      (genreEvents dp books).foldl (fun gl e => addBookToGenre gl e.1 e.2) gl := by
  intro dp
  induction dp with
  | nil => intro gl; rfl
  | cons fg t ih =>
    intro gl
    simp only [List.foldl_cons, genreEvents, List.flatMap_cons, List.foldl_append]
    rw [genre_inner_fold fg books gl]
    exact ih _

theorem genres_eq_events_fold (dictPairs : List (Str × Str)) (books : List Book) :
    generate_html_by_genres dictPairs books =
      (genreEvents dictPairs books).foldl
        (fun gl e => addBookToGenre gl e.1 e.2) [] :=
  genres_eq_events_fold_aux books dictPairs []

theorem filter_fst_block (c g : Str) (l : List Book) :
    ((l.map (fun b => (c, b))).filter (fun e => e.1 = g)).map Prod.snd =
      if c = g then l else [] := by
  induction l with
  | nil => simp
  | cons b t ih =>
    simp only [List.map_cons, List.filter_cons]
    by_cases hc : c = g
    · simp [hc] at ih
      simp [hc, ih]
    · simp [hc] at ih
      simp [hc, ih]

theorem encounterSeq_eq_events (books : List Book) (g : Str) :
    ∀ (dp : List (Str × Str)),
      ((genreEvents dp books).filter (fun e => e.1 = g)).map Prod.snd =
        encounterSeq dp books g := by
  intro dp
  induction dp with
  | nil => rfl
  | cons fg t ih =>
    have hgev : genreEvents (fg :: t) books =
        ((books.filter (fun b => fg.1 ∈ b.genres)).map (fun b => (fg.2, b))) ++
          genreEvents t books := rfl
    rw [hgev, List.filter_append, List.map_append, ih,
      filter_fst_block fg.2 g (books.filter (fun b => fg.1 ∈ b.genres))]
    by_cases hg : fg.2 = g
    · have hseq : encounterSeq (fg :: t) books g =
          (books.filter (fun b => fg.1 ∈ b.genres)) ++ encounterSeq t books g := by
        show (((fg :: t).filter (fun x => x.2 = g)).flatMap _) = _
        rw [List.filter_cons_of_pos (by simpa using hg), List.flatMap_cons]
        rfl
      rw [hseq, if_pos hg]
    · have hseq : encounterSeq (fg :: t) books g = encounterSeq t books g := by
        show (((fg :: t).filter (fun x => x.2 = g)).flatMap _) = _
        rw [List.filter_cons_of_neg (by simpa using hg)]
        rfl
      rw [hseq, if_neg hg]
      rfl

theorem dedupByTitleAux_append (b : Book) :
    ∀ (s acc : List Book),
      dedupByTitleAux acc (s ++ [b]) =
        (if (dedupByTitleAux acc s).any (fun x => x.title = b.title)
         then dedupByTitleAux acc s else dedupByTitleAux acc s ++ [b]) := by
  intro s
  induction s with
  | nil =>
    intro acc
    show dedupByTitleAux acc [b] = _
    simp [dedupByTitleAux]
  | cons c cs ih =>
    intro acc
    show dedupByTitleAux _ (cs ++ [b]) = _
    rw [ih]
    rfl

theorem dedupByTitleAux_pairwise :
    ∀ (l acc : List Book),
      acc.Pairwise (fun x y => x.title ≠ y.title) →
      (dedupByTitleAux acc l).Pairwise (fun x y => x.title ≠ y.title) := by
  intro l
  induction l with
  | nil => intro acc h; exact h
  | cons b bs ih =>
    intro acc h
    show (dedupByTitleAux (if acc.any (fun x => x.title = b.title)
      then acc else acc ++ [b]) bs).Pairwise _
    by_cases hany : acc.any (fun x => x.title = b.title)
    · rw [if_pos hany]
      exact ih acc h
    · rw [if_neg hany]
      refine ih (acc ++ [b]) ?_
      rw [List.pairwise_append]
      refine ⟨h, List.pairwise_singleton _ b, fun x hx y hy => ?_⟩
      rw [List.mem_singleton.mp hy]
      intro hxt
      exact hany (List.any_eq_true.mpr ⟨x, hx, by simpa using hxt⟩)

theorem dedupByTitleAux_covers :
    ∀ (l acc : List Book) (t : Str),
      ((∃ x ∈ acc, x.title = t) ∨ (∃ x ∈ l, x.title = t)) →
      ∃ x ∈ dedupByTitleAux acc l, x.title = t := by
  intro l
  induction l with
  | nil =>
    intro acc t h
    rcases h with h | h
    · exact h
    · obtain ⟨x, hx, _⟩ := h
      cases hx
  | cons b bs ih =>
    intro acc t h
    show ∃ x ∈ dedupByTitleAux (if acc.any (fun x => x.title = b.title)
      then acc else acc ++ [b]) bs, x.title = t
    by_cases hany : acc.any (fun x => x.title = b.title)
    · rw [if_pos hany]
      refine ih acc t ?_
      rcases h with h | h
      · exact Or.inl h
      · obtain ⟨x, hx, hxt⟩ := h
        rcases List.mem_cons.mp hx with hx | hx
        · obtain ⟨y, hy, hyt⟩ := List.any_eq_true.mp hany
          refine Or.inl ⟨y, hy, ?_⟩
          have hyb : y.title = b.title := by simpa using hyt
          rw [hyb, ← hx]
          exact hxt
        · exact Or.inr ⟨x, hx, hxt⟩
    · rw [if_neg hany]
      refine ih (acc ++ [b]) t ?_
      rcases h with h | h
      · obtain ⟨x, hx, hxt⟩ := h
        exact Or.inl ⟨x, List.mem_append_left _ hx, hxt⟩
      · obtain ⟨x, hx, hxt⟩ := h
        rcases List.mem_cons.mp hx with hx | hx
        · exact Or.inl ⟨b, List.mem_append_right _ (List.mem_singleton_self b),
            by rw [← hx]; exact hxt⟩
        · exact Or.inr ⟨x, hx, hxt⟩

theorem countP_title_eq_one :
    ∀ (l : List Book), l.Pairwise (fun x y => x.title ≠ y.title) →
      ∀ t : Str, (∃ x ∈ l, x.title = t) →
        l.countP (fun x => x.title = t) = 1 := by
  intro l
  induction l with
  | nil =>
    intro _ t h
    obtain ⟨x, hx, _⟩ := h
    cases hx
  | cons b bs ih =>
    intro hpw t hex
    have hpw' := List.pairwise_cons.mp hpw
    rw [List.countP_cons]
    by_cases hb : b.title = t
    · have hz : bs.countP (fun x => decide (x.title = t)) = 0 := by
        refine List.countP_eq_zero.mpr (fun y hy => ?_)
        simp only [decide_eq_true_eq]
        intro hyt
        exact hpw'.1 y hy (hb ▸ hyt ▸ rfl)
      rw [hz]
      simp [hb]
    · rcases hex with ⟨x, hx, hxt⟩
      rcases List.mem_cons.mp hx with hx | hx
      · exact absurd (hx ▸ hxt) hb
      · rw [ih hpw'.2 t ⟨x, hx, hxt⟩]
        simp [hb]

theorem addBookToGenre_keys (gl : List (Str × List Book)) (g : Str) (b : Book) :
    (addBookToGenre gl g b).map Prod.fst =
      if g ∈ gl.map Prod.fst then gl.map Prod.fst
      else gl.map Prod.fst ++ [g] := by
  by_cases h : g ∈ gl.map Prod.fst
  · rw [if_pos h]
    simp only [addBookToGenre, if_pos h, List.map_map]
    refine List.map_congr_left (fun e _ => ?_)
    by_cases he : e.1 = g ∧ ¬ (e.2.any (fun x => x.title = b.title))
    · show (if _ then (e.1, e.2 ++ [b]) else e).1 = e.1
      rw [if_pos he]
    · show (if _ then (e.1, e.2 ++ [b]) else e).1 = e.1
      rw [if_neg he]
  · rw [if_neg h]
    simp [addBookToGenre, if_neg h]

theorem genre_fold_invariant (es : List (Str × Book)) :
    ((es.foldl (fun gl e => addBookToGenre gl e.1 e.2) []).map Prod.fst).Nodup ∧
    (∀ g, g ∈ (es.foldl (fun gl e => addBookToGenre gl e.1 e.2) []).map Prod.fst ↔
      g ∈ es.map Prod.fst) ∧
    (∀ e ∈ es.foldl (fun gl e => addBookToGenre gl e.1 e.2) [],
      e.2 = dedupByTitle ((es.filter (fun x => x.1 = e.1)).map Prod.snd)) := by
  induction es using List.reverseRecOn with
  | nil => simp
  | append_singleton es ev ih =>
    obtain ⟨ihnd, ihmem, ihval⟩ := ih
    rw [List.foldl_append, List.foldl_cons, List.foldl_nil]
    set out := es.foldl (fun gl e => addBookToGenre gl e.1 e.2) [] with hout
    have hkeys := addBookToGenre_keys out ev.1 ev.2
    by_cases hm : ev.1 ∈ out.map Prod.fst
    · rw [if_pos hm] at hkeys
      refine ⟨by rw [hkeys]; exact ihnd, ?_, ?_⟩
      · intro g
        rw [hkeys, List.map_append, List.mem_append, ihmem g]
        constructor
        · exact fun h => Or.inl h
        · rintro (h | h)
          · exact h
          · rw [List.mem_singleton.mp h]
            exact (ihmem ev.1).mp hm
      · intro e he
        have he' : e ∈ out.map (fun x =>
            if x.1 = ev.1 ∧ ¬ (x.2.any (fun y => y.title = ev.2.title))
            then (x.1, x.2 ++ [ev.2]) else x) := by
          simpa [addBookToGenre, if_pos hm] using he
        obtain ⟨x, hx, hxe⟩ := List.mem_map.mp he'
        have hfilter : ((es ++ [ev]).filter (fun z => z.1 = x.1)).map Prod.snd =
            (es.filter (fun z => z.1 = x.1)).map Prod.snd ++
              (if ev.1 = x.1 then [ev.2] else []) := by
          rw [List.filter_append, List.map_append]
          by_cases hevx : ev.1 = x.1
          · rw [List.filter_cons_of_pos (by simpa using hevx)]
            simp [hevx]
          · rw [List.filter_cons_of_neg (by simpa using hevx)]
            simp [hevx]
        have hxv : x.2 = dedupByTitleAux []
            ((es.filter (fun z => z.1 = x.1)).map Prod.snd) := ihval x hx
        by_cases hcond : x.1 = ev.1 ∧ ¬ (x.2.any (fun y => y.title = ev.2.title))
        · rw [if_pos hcond] at hxe
          rw [← hxe]
          show x.2 ++ [ev.2] = dedupByTitleAux []
            (((es ++ [ev]).filter (fun z => z.1 = x.1)).map Prod.snd)
          have hfilter2 : ((es ++ [ev]).filter (fun z => z.1 = x.1)).map Prod.snd =
              (es.filter (fun z => z.1 = x.1)).map Prod.snd ++ [ev.2] := by
            rw [hfilter, if_pos hcond.1.symm]
          rw [hfilter2, dedupByTitleAux_append, ← hxv, if_neg hcond.2]
        · rw [if_neg hcond] at hxe
          rw [← hxe]
          by_cases hx1 : x.1 = ev.1
          · have hany : x.2.any (fun y => y.title = ev.2.title) := by
              by_cases h2 : x.2.any (fun y => y.title = ev.2.title)
              · exact h2
              · exact absurd ⟨hx1, by simpa using h2⟩ hcond
            show x.2 = dedupByTitleAux []
              (((es ++ [ev]).filter (fun z => z.1 = x.1)).map Prod.snd)
            have hfilter2 : ((es ++ [ev]).filter (fun z => z.1 = x.1)).map Prod.snd =
                (es.filter (fun z => z.1 = x.1)).map Prod.snd ++ [ev.2] := by
              rw [hfilter, if_pos hx1.symm]
            rw [hfilter2, dedupByTitleAux_append, ← hxv, if_pos hany]
          · show x.2 = dedupByTitleAux []
              (((es ++ [ev]).filter (fun z => z.1 = x.1)).map Prod.snd)
            have hfilter2 : ((es ++ [ev]).filter (fun z => z.1 = x.1)).map Prod.snd =
                (es.filter (fun z => z.1 = x.1)).map Prod.snd := by
              rw [hfilter, if_neg (fun h => hx1 h.symm), List.append_nil]
            rw [hfilter2]
            exact hxv
    · rw [if_neg hm] at hkeys
      have hout' : addBookToGenre out ev.1 ev.2 = out ++ [(ev.1, [ev.2])] := by
        simp [addBookToGenre, if_neg hm]
      refine ⟨?_, ?_, ?_⟩
      · rw [hkeys]
        rw [List.nodup_append]
        exact ⟨ihnd, List.nodup_singleton _, by
          intro a ha hb
          rw [List.mem_singleton.mp hb] at ha
          exact hm ha⟩
      · intro g
        rw [hkeys]
        simp only [List.map_append, List.mem_append, List.mem_singleton,
          List.map_cons, List.map_nil, ihmem g]
      · intro e he
        rw [hout'] at he
        rcases List.mem_append.mp he with he | he
        · have hne : ev.1 ≠ e.1 := by
            intro h
            apply hm
            rw [h]
            exact List.mem_map.mpr ⟨e, he, rfl⟩
          have hfilter : (es ++ [ev]).filter (fun z => z.1 = e.1) =
              es.filter (fun z => z.1 = e.1) := by
            rw [List.filter_append, List.filter_cons_of_neg (by simpa using hne)]
            simp
          rw [hfilter]
          exact ihval e he
        · rw [List.mem_singleton.mp he]
          show [ev.2] = _
          have hmem0 : ev.1 ∉ es.map Prod.fst := fun h => hm ((ihmem ev.1).mpr h)
          have hfes : es.filter (fun z => z.1 = (ev.1, [ev.2]).1) = [] := by
            refine List.filter_eq_nil_iff.mpr (fun z hz => ?_)
            simp only [decide_eq_true_eq]
            intro hz1
            exact hmem0 (List.mem_map.mpr ⟨z, hz, hz1⟩)
          rw [List.filter_append, hfes, List.nil_append,
            List.filter_cons_of_pos (by simp)]
          rfl

/-- C10: within one genre group built by `generate_html_by_genres`,
the book list is exactly the keep-first-by-title deduplication of the
encounter sequence (friendly tags in iteration order, books in list
order); hence titles are pairwise distinct — a record reached through
two friendly tags normalizing to the same identifier appears exactly
once, and two distinct records sharing a title collapse to the first
encountered — and every encountered record's title is represented
exactly once. -/
theorem c10_genre_dedup (dictPairs : List (Str × Str)) (books : List Book) :
    (∀ e ∈ generate_html_by_genres dictPairs books,
      e.2 = dedupByTitle (encounterSeq dictPairs books e.1)) ∧
    (∀ e ∈ generate_html_by_genres dictPairs books,
      e.2.Pairwise (fun x y => x.title ≠ y.title)) ∧
    (∀ e ∈ generate_html_by_genres dictPairs books,
      ∀ b ∈ encounterSeq dictPairs books e.1,
        e.2.countP (fun x => x.title = b.title) = 1) := by
  have hfold := genres_eq_events_fold dictPairs books
  have hinv := genre_fold_invariant (genreEvents dictPairs books)
  have hval : ∀ e ∈ generate_html_by_genres dictPairs books,
      e.2 = dedupByTitle (encounterSeq dictPairs books e.1) := by
    intro e he
    rw [hfold] at he
    have hv := hinv.2.2 e he
    rw [encounterSeq_eq_events books e.1 dictPairs] at hv
    exact hv
  refine ⟨hval, ?_, ?_⟩
  · intro e he
    rw [hval e he]
    exact dedupByTitleAux_pairwise _ [] List.Pairwise.nil
  · intro e he b hb
    rw [hval e he]
    refine countP_title_eq_one _
      (dedupByTitleAux_pairwise _ [] List.Pairwise.nil) b.title ?_
    exact dedupByTitleAux_covers _ [] b.title (Or.inr ⟨b, hb, rfl⟩)

/-- Witness for C10: one record carrying both `"Sci-Fi"` and `"SciFi"`
(which normalize to the same identifier) appears exactly once in the
`scifi` group. -/
theorem c10_genre_dedup_witness :
    generate_html_by_genres
      [(str "Sci-Fi", str "scifi"), (str "SciFi", str "scifi")]
      [⟨7, str "Dune", str "H", [str "H"], str "h", none,
        [str "Sci-Fi", str "SciFi"]⟩] =
      [(str "scifi", [⟨7, str "Dune", str "H", [str "H"], str "h", none,
        [str "Sci-Fi", str "SciFi"]⟩])] ∧
    ([⟨7, str "Dune", str "H", [str "H"], str "h", none,
        [str "Sci-Fi", str "SciFi"]⟩] : List Book) =
      dedupByTitle (encounterSeq
        [(str "Sci-Fi", str "scifi"), (str "SciFi", str "scifi")]
        [⟨7, str "Dune", str "H", [str "H"], str "h", none,
          [str "Sci-Fi", str "SciFi"]⟩] (str "scifi")) := by
  have h := c10_genre_dedup
    [(str "Sci-Fi", str "scifi"), (str "SciFi", str "scifi")]
    [⟨7, str "Dune", str "H", [str "H"], str "h", none,
      [str "Sci-Fi", str "SciFi"]⟩]
  refine ⟨by decide, ?_⟩
  exact h.1 (str "scifi", [⟨7, str "Dune", str "H", [str "H"], str "h", none,
    [str "Sci-Fi", str "SciFi"]⟩]) (by decide)

/- ### C1: spine section order -/

theorem findIdx_append_none (p : Char → Bool) :
    ∀ (l1 l2 : Str), (∀ c ∈ l1, p c = false) →
      (l1 ++ l2).findIdx p = l1.length + l2.findIdx p := by
  intro l1
  induction l1 with
  | nil => intro l2 _; simp
  | cons a t ih =>
    intro l2 h
    have ha : p a = false := h a (List.mem_cons_self a t)
    rw [List.cons_append, List.findIdx_cons, ha]
    show (t ++ l2).findIdx p + 1 = t.length + 1 + l2.findIdx p
    rw [ih l2 (fun c hc => h c (List.mem_cons_of_mem a hc))]
    omega

theorem findIdx_append_some (p : Char → Bool) :
    ∀ (l1 l2 : Str), (∃ c ∈ l1, p c = true) →
      (l1 ++ l2).findIdx p = l1.findIdx p := by
  intro l1
  induction l1 with
  | nil => intro l2 h; obtain ⟨c, hc, _⟩ := h; cases hc
  | cons a t ih =>
    intro l2 h
    rw [List.cons_append, List.findIdx_cons, List.findIdx_cons]
    by_cases ha : p a
    · rw [ha]
      rfl
    · have ha' : p a = false := by simpa using ha
      rw [ha']
      obtain ⟨c, hc, hpc⟩ := h
      rcases List.mem_cons.mp hc with hc | hc
      · rw [hc] at hpc
        rw [ha'] at hpc
        cases hpc
      · rw [ih l2 ⟨c, hc, hpc⟩]

theorem take_append_local {α : Type} :
    ∀ (l1 l2 : List α) (i : Nat), (l1 ++ l2).take (l1.length + i) = l1 ++ l2.take i := by
  intro l1
  induction l1 with
  | nil => intro l2 i; simp
  | cons a t ih =>
    intro l2 i
    show (a :: (t ++ l2)).take (t.length + 1 + i) = a :: (t ++ l2.take i)
    have h1 : t.length + 1 + i = (t.length + i) + 1 := by omega
    rw [h1, List.take_succ_cons, ih l2 i]

theorem drop_append_le {α : Type} :
    ∀ (l1 l2 : List α) (i : Nat), i ≤ l1.length →
      (l1 ++ l2).drop i = l1.drop i ++ l2 := by
  intro l1
  induction l1 with
  | nil =>
    intro l2 i h
    have : i = 0 := Nat.le_zero.mp h
    simp [this]
  | cons a t ih =>
    intro l2 i h
    cases i with
    | zero => simp
    | succ n =>
      show (t ++ l2).drop n = t.drop n ++ l2
      exact ih l2 n (Nat.le_of_succ_le_succ h)

theorem idOfFile_genreFile (g : Str) :
    idOfFile (genreFile g) =
      str "genre_" ++ lowerStr ((g ++ str ".html").take
        ((g ++ str ".html").findIdx (fun c => c = '.'))) := by
  have hpre : genreFile g = str "content/Genre_" ++ (g ++ str ".html") := by
    show str "content/Genre_" ++ g ++ str ".html" = _
    rw [List.append_assoc]
  rw [idOfFile, hpre]
  have hdot : (str "content/Genre_" ++ (g ++ str ".html")).findIdx
      (fun c => c = '.') = 14 + (g ++ str ".html").findIdx (fun c => c = '.') := by
    have := findIdx_append_none (fun c => c = '.') (str "content/Genre_")
      (g ++ str ".html") (by decide)
    simpa using this
  have hslash : (str "content/Genre_" ++ (g ++ str ".html")).findIdx
      (fun c => c = '/') = 7 := by
    have := findIdx_append_some (fun c => c = '/') (str "content/Genre_")
      (g ++ str ".html") (by decide)
    rw [this]
    decide
  rw [hdot, hslash]
  have htake : (str "content/Genre_" ++ (g ++ str ".html")).take
      (14 + (g ++ str ".html").findIdx (fun c => c = '.')) =
      str "content/Genre_" ++ (g ++ str ".html").take
        ((g ++ str ".html").findIdx (fun c => c = '.')) := by
    have := take_append_local (str "content/Genre_") (g ++ str ".html")
      ((g ++ str ".html").findIdx (fun c => c = '.'))
    simpa using this
  rw [htake]
  have hdrop : (str "content/Genre_" ++ (g ++ str ".html").take
      ((g ++ str ".html").findIdx (fun c => c = '.'))).drop (7 + 1) =
      str "Genre_" ++ (g ++ str ".html").take
        ((g ++ str ".html").findIdx (fun c => c = '.')) := by
    have := drop_append_le (str "content/Genre_") ((g ++ str ".html").take
      ((g ++ str ".html").findIdx (fun c => c = '.'))) 8 (by decide)
    rw [this]
    rfl
  rw [hdrop]
  show lowerStr (str "Genre_" ++ _) = _
  rw [lowerStr, List.map_append]
  rfl

theorem classify_genre_prefixed (t : Str) :
    classifyIdref (str "genre_" ++ t) = CatSection.genres := by
  unfold classifyIdref
  have h1 : ¬ (str "genre_" ++ t = str "byauthor") := by
    intro h
    have h2 : 'g' = 'b' := congrArg (fun l => l.headD ' ') h
    cases h2
  have h2 : ¬ (str "genre_" ++ t = str "byseries") := by
    intro h
    have h3 : 'g' = 'b' := congrArg (fun l => l.headD ' ') h
    cases h3
  rw [if_neg h1, if_neg h2, if_pos]
  exact List.isPrefixOf_iff_prefix.mpr (List.prefix_append _ t)

theorem classify_book_id (r : Str) :
    classifyIdref (str "book" ++ r) = CatSection.descriptions := by
  unfold classifyIdref
  have h1 : ¬ (str "book" ++ r = str "byauthor") := by
    intro h
    have h2 : 'o' = 'y' := congrArg (fun l => l.tail.headD ' ') h
    cases h2
  have h2 : ¬ (str "book" ++ r = str "byseries") := by
    intro h
    have h3 : 'o' = 'y' := congrArg (fun l => l.tail.headD ' ') h
    cases h3
  have h3 : (str "genre_").isPrefixOf (str "book" ++ r) = false := rfl
  rw [if_neg h1, if_neg h2, h3]
  rfl

theorem map_const_local {α β : Type} (c : β) :
    ∀ (l : List α) (f : α → β), (∀ x ∈ l, f x = c) →
      l.map f = List.replicate l.length c := by
  intro l
  induction l with
  | nil => intro f _; rfl
  | cons a t ih =>
    intro f h
    show f a :: t.map f = c :: List.replicate t.length c
    rw [h a (List.mem_cons_self a t), ih f (fun x hx => h x (List.mem_cons_of_mem a hx))]

theorem dedupFirst_append {α : Type} [DecidableEq α] :
    ∀ (l1 l2 : List α), dedupFirst (l1 ++ l2) =
      dedupFirst l1 ++ (dedupFirst l2).filter (fun y => y ∉ l1) := by
  intro l1
  induction l1 with
  | nil =>
    intro l2
    show dedupFirst l2 = [] ++ (dedupFirst l2).filter (fun y => y ∉ ([] : List α))
    rw [List.nil_append]
    exact (List.filter_eq_self.mpr (fun a _ => by simp)).symm
  | cons x t ih =>
    intro l2
    show x :: (dedupFirst (t ++ l2)).filter (fun y => y ≠ x) = _
    rw [ih l2, List.filter_append]
    show x :: (_ ++ _) = (x :: (dedupFirst t).filter (fun y => y ≠ x)) ++ _
    rw [List.cons_append]
    refine congrArg _ (congrArg _ ?_)
    rw [List.filter_filter]
    refine List.filter_congr (fun a _ => ?_)
    by_cases h1 : a = x <;> by_cases h2 : a ∈ t <;>
      simp [h1, h2, List.mem_cons]

theorem dedupFirst_replicate {α : Type} [DecidableEq α] (a : α) :
    ∀ n : Nat, dedupFirst (List.replicate n a) = if n = 0 then [] else [a] := by
  intro n
  induction n with
  | zero => rfl
  | succ m ih =>
    show a :: (dedupFirst (List.replicate m a)).filter (fun y => y ≠ a) = [a]
    rw [ih]
    by_cases hm : m = 0
    · rw [if_pos hm]
      rfl
    · rw [if_neg hm]
      simp

theorem dedupFirst_eq_self_of_nodup {α : Type} [DecidableEq α] :
    ∀ (l : List α), l.Nodup → dedupFirst l = l := by
  intro l
  induction l with
  | nil => intro _; rfl
  | cons x t ih =>
    intro h
    obtain ⟨hx, ht⟩ := List.nodup_cons.mp h
    show x :: (dedupFirst t).filter (fun y => y ≠ x) = x :: t
    rw [ih ht]
    refine congrArg _ (List.filter_eq_self.mpr (fun a ha => ?_))
    simp only [ne_eq, decide_eq_true_eq, decide_not]
    simp only [Bool.not_eq_true', decide_eq_false_iff_not]
    intro hax
    exact hx (hax ▸ ha)

theorem dedupFirst_shape (s : List CatSection) (m k : Nat)
    (hg : CatSection.genres ∉ s) (hd : CatSection.descriptions ∉ s)
    (hnd : s.Nodup) :
    dedupFirst (s ++ (List.replicate m CatSection.genres ++
      List.replicate k CatSection.descriptions)) =
      s ++ ((if m = 0 then [] else [CatSection.genres]) ++
        (if k = 0 then [] else [CatSection.descriptions])) := by
  rw [dedupFirst_append, dedupFirst_append, dedupFirst_replicate,
    dedupFirst_replicate, dedupFirst_eq_self_of_nodup s hnd]
  refine congrArg _ ?_
  have hfd : ((if k = 0 then [] else [CatSection.descriptions]) :
      List CatSection).filter
        (fun y => y ∉ List.replicate m CatSection.genres) =
      (if k = 0 then [] else [CatSection.descriptions]) := by
    refine List.filter_eq_self.mpr (fun a ha => ?_)
    by_cases hk : k = 0
    · rw [if_pos hk] at ha; cases ha
    · rw [if_neg hk] at ha
      rw [List.mem_singleton.mp ha]
      simp [List.mem_replicate]
  rw [hfd, List.filter_append]
  have h1 : ((if m = 0 then [] else [CatSection.genres]) :
      List CatSection).filter (fun y => y ∉ s) =
      (if m = 0 then [] else [CatSection.genres]) := by
    refine List.filter_eq_self.mpr (fun a ha => ?_)
    by_cases hm : m = 0
    · rw [if_pos hm] at ha; cases ha
    · rw [if_neg hm] at ha
      rw [List.mem_singleton.mp ha]
      simpa using hg
  have h2 : ((if k = 0 then [] else [CatSection.descriptions]) :
      List CatSection).filter (fun y => y ∉ s) =
      (if k = 0 then [] else [CatSection.descriptions]) := by
    refine List.filter_eq_self.mpr (fun a ha => ?_)
    by_cases hk : k = 0
    · rw [if_pos hk] at ha; cases ha
    · rw [if_neg hk] at ha
      rw [List.mem_singleton.mp ha]
      simpa using hd
  rw [h1, h2]

theorem spine_map_classify (hsb : Bool) (genreTags : List Str) (bookIds : List Nat) :
    (generate_opf_spine (html_filelist_1 hsb) genreTags [] bookIds).map
      classifyIdref =
      ([CatSection.authors] ++ (if hsb then [CatSection.series] else [])) ++
      (List.replicate genreTags.length CatSection.genres ++
        List.replicate bookIds.length CatSection.descriptions) := by
  have h2 : genreTags.map (fun g => classifyIdref (idOfFile (genreFile g))) =
      List.replicate genreTags.length CatSection.genres := by
    refine map_const_local _ genreTags _ (fun g _ => ?_)
    rw [idOfFile_genreFile g]
    exact classify_genre_prefixed _
  have h3 : bookIds.map (fun i => classifyIdref (str "book" ++ natRepr i)) =
      List.replicate bookIds.length CatSection.descriptions :=
    map_const_local _ bookIds _ (fun i _ => classify_book_id _)
  have h2' : genreTags.map (classifyIdref ∘ fun g => idOfFile (genreFile g)) =
      List.replicate genreTags.length CatSection.genres := h2
  have h3' : bookIds.map (classifyIdref ∘ fun i => str "book" ++ natRepr i) =
      List.replicate bookIds.length CatSection.descriptions := h3
  have h1 : (html_filelist_1 hsb).map (classifyIdref ∘ idOfFile) =
      [CatSection.authors] ++ (if hsb then [CatSection.series] else []) := by
    cases hsb <;> rfl
  unfold generate_opf_spine
  simp only [List.map_append, List.map_map, List.map_nil, List.nil_append]
  rw [h1, h2', h3']
  simp [List.append_assoc]

theorem if_nil_length {α β : Type} [DecidableEq α] (l : List α) (r : List β) :
    (if l.length = 0 then ([] : List β) else r) =
      (if l = [] then ([] : List β) else r) := by
  by_cases h : l = []
  · rw [if_pos (show l.length = 0 by rw [h]; rfl), if_pos h]
  · rw [if_neg (fun hl => h (List.length_eq_zero.mp hl)), if_neg h]

/-- C1 (amended): the spine's section ordering is Authors, then Series
exactly when the catalog contains series books, then Genres when genre
files exist, then Descriptions when description pages exist; when the
series flag is enabled exactly when series books exist and both genre
and description content is present, this equals the navigation tree's
section order with the Descriptions section moved from second place to
the end. -/
theorem c1_spine_section_order_amended (genSeries hsb : Bool)
    (genreTags : List Str) (bookIds : List Nat) :
    spine_section_order hsb genreTags bookIds =
      ([CatSection.authors] ++ (if hsb then [CatSection.series] else [])) ++
      ((if genreTags = [] then [] else [CatSection.genres]) ++
        (if bookIds = [] then [] else [CatSection.descriptions])) ∧
    (genreTags ≠ [] → bookIds ≠ [] → (hsb = true → genSeries = true) →
      spine_section_order hsb genreTags bookIds =
        (ncx_section_order genSeries hsb true).filter
          (fun s => s ≠ CatSection.descriptions) ++
          [CatSection.descriptions]) := by
  have hmain : spine_section_order hsb genreTags bookIds =
      ([CatSection.authors] ++ (if hsb then [CatSection.series] else [])) ++
      ((if genreTags = [] then [] else [CatSection.genres]) ++
        (if bookIds = [] then [] else [CatSection.descriptions])) := by
    show dedupFirst _ = _
    rw [spine_map_classify hsb genreTags bookIds]
    rw [dedupFirst_shape ([CatSection.authors] ++
      (if hsb then [CatSection.series] else [])) genreTags.length
      bookIds.length (by cases hsb <;> decide) (by cases hsb <;> decide)
      (by cases hsb <;> decide)]
    rw [if_nil_length genreTags [CatSection.genres],
      if_nil_length bookIds [CatSection.descriptions]]
  refine ⟨hmain, fun hg hb hs => ?_⟩
  rw [hmain, if_neg hg, if_neg hb]
  have hss : (genSeries && hsb) = hsb := by
    cases hsb
    · simp
    · simp [hs rfl]
  show _ = (([CatSection.authors, CatSection.descriptions] ++
    ((if genSeries && hsb then [CatSection.series] else []) ++
      (if true then [CatSection.genres] else []))).filter
        (fun s => s ≠ CatSection.descriptions)) ++ [CatSection.descriptions]
  rw [hss]
  cases hsb <;> rfl

/-- Witness for C1's amended ordering at a concrete configuration with
series books, one genre and one description page. -/
theorem c1_spine_section_order_witness :
    spine_section_order true [str "fiction"] [1] =
      [CatSection.authors, CatSection.series, CatSection.genres,
        CatSection.descriptions] ∧
    spine_section_order true [str "fiction"] [1] =
      (ncx_section_order true true true).filter
        (fun s => s ≠ CatSection.descriptions) ++
        [CatSection.descriptions] := by
  have h := c1_spine_section_order_amended true true [str "fiction"] [1]
  exact ⟨h.1.trans (by decide), h.2 (by decide) (by decide) (fun _ => rfl)⟩

/- ### C3/C4: characters, decimal rendering and key ordering -/

theorem charOfNat_toNat (m : Nat) (h : m < 55296) : (Char.ofNat m).toNat = m := by
  have hv : m.isValidChar := Or.inl h
  unfold Char.ofNat
  rw [dif_pos hv]
  rfl

theorem toLower_eq_self_of_lt (c : Char) (h : c.toNat < 65) : c.toLower = c := by
  unfold Char.toLower
  rw [if_neg]
  intro hc
  omega

theorem toUpper_eq_self_of_lt (c : Char) (h : c.toNat < 97) : c.toUpper = c := by
  unfold Char.toUpper
  rw [if_neg]
  intro hc
  omega

theorem toUpper_alpha_range (c : Char) (h : isAsciiAlpha c = true) :
    65 ≤ c.toUpper.toNat ∧ c.toUpper.toNat ≤ 90 := by
  have h' := h
  unfold isAsciiAlpha at h'
  simp only [Bool.or_eq_true, Bool.and_eq_true, decide_eq_true_eq] at h'
  rcases h' with h' | h'
  · rw [toUpper_eq_self_of_lt c (by omega)]
    exact h'
  · unfold Char.toUpper
    rw [if_pos (by omega)]
    rw [charOfNat_toNat _ (by omega)]
    omega

theorem digitChar_toNat (d : Nat) (h : d < 10) : (digitChar d).toNat = 48 + d := by
  unfold digitChar
  rw [charOfNat_toNat _ (by omega)]

theorem natReprAux_digits :
    ∀ (fuel n : Nat), ∀ c ∈ natReprAux fuel n, 48 ≤ c.toNat ∧ c.toNat ≤ 57 := by
  intro fuel
  induction fuel with
  | zero => intro n c hc; cases hc
  | succ f ih =>
    intro n c hc
    rw [natReprAux] at hc
    by_cases hn : n < 10
    · rw [if_pos hn] at hc
      rw [List.mem_singleton.mp hc, digitChar_toNat n hn]
      omega
    · rw [if_neg hn] at hc
      rcases List.mem_append.mp hc with hc | hc
      · exact ih (n / 10) c hc
      · rw [List.mem_singleton.mp hc,
          digitChar_toNat (n % 10) (Nat.mod_lt n (by omega))]
        have := Nat.mod_lt n (show 0 < 10 by omega)
        omega

theorem natReprAux_length :
    ∀ (fuel : Nat), ∀ (k n : Nat), n < 10 ^ k → 1 ≤ k →
      (natReprAux fuel n).length ≤ k := by
  intro fuel
  induction fuel with
  | zero => intro k n _ _; simp [natReprAux]
  | succ f ih =>
    intro k n hn hk
    rw [natReprAux]
    by_cases h10 : n < 10
    · rw [if_pos h10]
      simpa using hk
    · rw [if_neg h10]
      rw [List.length_append]
      have hk2 : 2 ≤ k := by
        by_contra hlt
        have hk1 : k = 1 := by omega
        rw [hk1] at hn
        simp at hn
        omega
      have hdiv : n / 10 < 10 ^ (k - 1) := by
        have hpow : 10 ^ k = 10 ^ (k - 1) * 10 := by
          rw [← pow_succ]
          congr 1
          omega
        rw [Nat.div_lt_iff_lt_mul (by omega)]
        rw [hpow] at hn
        exact hn
      have hrec := ih (k - 1) (n / 10) hdiv (by omega)
      simp only [List.length_singleton]
      omega

theorem natReprAux_ne_nil (f n : Nat) : natReprAux (f + 1) n ≠ [] := by
  rw [natReprAux]
  by_cases h : n < 10
  · rw [if_pos h]; simp
  · rw [if_neg h]; simp

theorem digitsVal_acc :
    ∀ (l : Str) (acc : Nat),
      l.foldl (fun a c => a * 10 + (c.toNat - 48)) acc =
        acc * 10 ^ l.length + digitsVal l := by
  intro l
  induction l with
  | nil => intro acc; simp [digitsVal]
  | cons c t ih =>
    intro acc
    show t.foldl _ (acc * 10 + (c.toNat - 48)) = _
    rw [ih (acc * 10 + (c.toNat - 48))]
    have h2 : digitsVal (c :: t) = (c.toNat - 48) * 10 ^ t.length + digitsVal t := by
      show t.foldl _ (0 * 10 + (c.toNat - 48)) = _
      rw [ih (0 * 10 + (c.toNat - 48))]
      ring_nf
    rw [h2, List.length_cons]
    ring

theorem digitsVal_lt :
    ∀ (l : Str), (∀ c ∈ l, 48 ≤ c.toNat ∧ c.toNat ≤ 57) →
      digitsVal l < 10 ^ l.length := by
  intro l
  induction l with
  | nil => intro _; simp [digitsVal]
  | cons c t ih =>
    intro h
    have hc := h c (List.mem_cons_self c t)
    have hv : digitsVal (c :: t) = (c.toNat - 48) * 10 ^ t.length + digitsVal t := by
      show t.foldl _ (0 * 10 + (c.toNat - 48)) = _
      rw [digitsVal_acc]
      ring_nf
    have ht := ih (fun x hx => h x (List.mem_cons_of_mem c hx))
    rw [hv, List.length_cons, pow_succ]
    have h9 : c.toNat - 48 ≤ 9 := by omega
    calc (c.toNat - 48) * 10 ^ t.length + digitsVal t
        < (c.toNat - 48) * 10 ^ t.length + 10 ^ t.length := by omega
      _ = (c.toNat - 48 + 1) * 10 ^ t.length := by ring
      _ ≤ 10 * 10 ^ t.length := Nat.mul_le_mul_right _ (by omega)
      _ = 10 ^ t.length * 10 := by ring

theorem natReprAux_val :
    ∀ (fuel n : Nat), n < 10 ^ fuel → digitsVal (natReprAux fuel n) = n := by
  intro fuel
  induction fuel with
  | zero =>
    intro n hn
    simp at hn
    simp [natReprAux, digitsVal, hn]
  | succ f ih =>
    intro n hn
    rw [natReprAux]
    by_cases h10 : n < 10
    · rw [if_pos h10]
      show (0 * 10 + ((digitChar n).toNat - 48)) = n
      rw [digitChar_toNat n h10]
      omega
    · rw [if_neg h10]
      have happ : digitsVal (natReprAux f (n / 10) ++ [digitChar (n % 10)]) =
          digitsVal (natReprAux f (n / 10)) * 10 +
            ((digitChar (n % 10)).toNat - 48) := by
        show List.foldl _ 0 (_ ++ [_]) = _
        rw [List.foldl_append]
        rfl
      rw [happ, ih (n / 10) ?_, digitChar_toNat (n % 10) (Nat.mod_lt n (by omega))]
      · omega
      · have hpow : 10 ^ (f + 1) = 10 ^ f * 10 := pow_succ 10 f
        rw [Nat.div_lt_iff_lt_mul (by omega)]
        rw [hpow] at hn
        exact hn

theorem natRepr_val (n : Nat) : digitsVal (natRepr n) = n := by
  refine natReprAux_val (n + 1) n ?_
  have h1 : n < 10 ^ n := Nat.lt_pow_self (by omega) n
  have h2 : (10 : Nat) ^ n ≤ 10 ^ (n + 1) :=
    Nat.pow_le_pow_right (by omega) (by omega)
  omega

theorem natRepr_ne_nil (n : Nat) : natRepr n ≠ [] := natReprAux_ne_nil n n

theorem natRepr_digits (n : Nat) :
    ∀ c ∈ natRepr n, 48 ≤ c.toNat ∧ c.toNat ≤ 57 :=
  natReprAux_digits (n + 1) n

theorem natRepr_length_le (n k : Nat) (h : n < 10 ^ k) (hk : 1 ≤ k) :
    (natRepr n).length ≤ k :=
  natReprAux_length (n + 1) k n h hk

theorem pyStrLt_cons_lt (a b : Char) (s t : Str) (h : a.toNat < b.toNat) :
    pyStrLt (a :: s) (b :: t) = true := by
  rw [pyStrLt, if_pos h]

theorem pyStrLt_append_same :
    ∀ (p s t : Str), pyStrLt s t = true → pyStrLt (p ++ s) (p ++ t) = true := by
  intro p
  induction p with
  | nil => intro s t h; exact h
  | cons a q ih =>
    intro s t h
    show pyStrLt (a :: (q ++ s)) (a :: (q ++ t)) = true
    rw [pyStrLt, if_neg (lt_irrefl a.toNat), if_pos rfl]
    exact ih s t h

theorem pyStrLt_eqlen_append :
    ∀ (d1 d2 s1 s2 : Str), d1.length = d2.length → pyStrLt d1 d2 = true →
      pyStrLt (d1 ++ s1) (d2 ++ s2) = true := by
  intro d1
  induction d1 with
  | nil =>
    intro d2 s1 s2 hlen h
    have : d2 = [] := List.length_eq_zero.mp hlen.symm
    rw [this] at h
    cases h
  | cons a t1 ih =>
    intro d2 s1 s2 hlen h
    cases d2 with
    | nil => simp at hlen
    | cons b t2 =>
      have hlen' : t1.length = t2.length := by simpa using hlen
      rw [pyStrLt] at h
      show pyStrLt (a :: (t1 ++ s1)) (b :: (t2 ++ s2)) = true
      rw [pyStrLt]
      by_cases hab : a.toNat < b.toNat
      · rw [if_pos hab]
      · rw [if_neg hab]
        rw [if_neg hab] at h
        by_cases heq : a.toNat = b.toNat
        · rw [if_pos heq]
          rw [if_pos heq] at h
          exact ih t2 s1 s2 hlen' h
        · rw [if_neg heq] at h
          cases h

theorem pyStrLt_digits :
    ∀ (d1 d2 : Str), d1.length = d2.length →
    (∀ c ∈ d1, 48 ≤ c.toNat ∧ c.toNat ≤ 57) →
    (∀ c ∈ d2, 48 ≤ c.toNat ∧ c.toNat ≤ 57) →
    digitsVal d1 < digitsVal d2 → pyStrLt d1 d2 = true := by
  intro d1
  induction d1 with
  | nil =>
    intro d2 hlen _ _ hv
    have h0 : d2 = [] := List.length_eq_zero.mp hlen.symm
    rw [h0] at hv
    exact absurd hv (lt_irrefl _)
  | cons a t1 ih =>
    intro d2 hlen h1 h2 hv
    cases d2 with
    | nil => simp at hlen
    | cons b t2 =>
      have hlen' : t1.length = t2.length := by simpa using hlen
      have hexp1 : digitsVal (a :: t1) =
          (a.toNat - 48) * 10 ^ t1.length + digitsVal t1 := by
        show t1.foldl _ (0 * 10 + (a.toNat - 48)) = _
        rw [digitsVal_acc]
        ring_nf
      have hexp2 : digitsVal (b :: t2) =
          (b.toNat - 48) * 10 ^ t2.length + digitsVal t2 := by
        show t2.foldl _ (0 * 10 + (b.toNat - 48)) = _
        rw [digitsVal_acc]
        ring_nf
      have ha := h1 a (List.mem_cons_self a t1)
      have hb := h2 b (List.mem_cons_self b t2)
      have ht1 := digitsVal_lt t1 (fun c hc => h1 c (List.mem_cons_of_mem a hc))
      have ht2 := digitsVal_lt t2 (fun c hc => h2 c (List.mem_cons_of_mem b hc))
      rw [pyStrLt]
      by_cases hab : a.toNat < b.toNat
      · rw [if_pos hab]
      · rw [if_neg hab]
        by_cases heq : a.toNat = b.toNat
        · rw [if_pos heq]
          refine ih t2 hlen' (fun c hc => h1 c (List.mem_cons_of_mem a hc))
            (fun c hc => h2 c (List.mem_cons_of_mem b hc)) ?_
          rw [hexp1, hexp2, hlen', heq] at hv
          omega
        · exfalso
          have hgt : b.toNat < a.toNat := by omega
          have hstep : (b.toNat - 48 + 1) ≤ (a.toNat - 48) := by omega
          have hle : (b.toNat - 48 + 1) * 10 ^ t1.length ≤
              (a.toNat - 48) * 10 ^ t1.length :=
            Nat.mul_le_mul_right _ hstep
          rw [hexp1, hexp2, ← hlen'] at hv
          have hbound : (b.toNat - 48) * 10 ^ t1.length + digitsVal t2 <
              (b.toNat - 48 + 1) * 10 ^ t1.length := by
            rw [← hlen'] at ht2
            have heq2 : (b.toNat - 48 + 1) * 10 ^ t1.length =
                (b.toNat - 48) * 10 ^ t1.length + 10 ^ t1.length := by ring
            omega
          omega

theorem pad10_lt (v1 v2 : Nat) (s1 s2 : Str) (h12 : v1 < v2) (h2 : v2 < 10 ^ 10) :
    pyStrLt (pad10 (natRepr v1) ++ s1) (pad10 (natRepr v2) ++ s2) = true := by
  have hL2 : (natRepr v2).length ≤ 10 := natRepr_length_le v2 10 h2 (by omega)
  have hv2P : v2 < 10 ^ (natRepr v2).length := by
    have := digitsVal_lt (natRepr v2) (natRepr_digits v2)
    rw [natRepr_val v2] at this
    exact this
  have hpos2 : 1 ≤ (natRepr v2).length := by
    cases hnn : natRepr v2 with
    | nil => exact absurd hnn (natRepr_ne_nil v2)
    | cons x xs => simp
  have hL1le : (natRepr v1).length ≤ (natRepr v2).length :=
    natRepr_length_le v1 _ (lt_trans h12 hv2P) hpos2
  have hsplit : pad10 (natRepr v1) =
      List.replicate (10 - (natRepr v2).length) ' ' ++
        (List.replicate ((natRepr v2).length - (natRepr v1).length) ' ' ++
          natRepr v1) := by
    show List.replicate (10 - (natRepr v1).length) ' ' ++ natRepr v1 = _
    rw [← List.append_assoc, ← List.replicate_add]
    congr 2
    omega
  have hsplit2 : pad10 (natRepr v2) =
      List.replicate (10 - (natRepr v2).length) ' ' ++ natRepr v2 := rfl
  rw [hsplit, hsplit2,
    List.append_assoc (List.replicate (10 - (natRepr v2).length) ' ')
      (List.replicate ((natRepr v2).length - (natRepr v1).length) ' ' ++ natRepr v1)
      s1,
    List.append_assoc (List.replicate (10 - (natRepr v2).length) ' ')
      (natRepr v2) s2]
  refine pyStrLt_append_same _ _ _ ?_
  by_cases hlen : (natRepr v1).length = (natRepr v2).length
  · rw [hlen, Nat.sub_self, List.replicate_zero, List.nil_append]
    refine pyStrLt_eqlen_append _ _ s1 s2 hlen ?_
    refine pyStrLt_digits (natRepr v1) (natRepr v2) hlen (natRepr_digits v1)
      (natRepr_digits v2) ?_
    rw [natRepr_val v1, natRepr_val v2]
    exact h12
  · have hstrict : (natRepr v1).length < (natRepr v2).length := by omega
    have hrep : List.replicate ((natRepr v2).length - (natRepr v1).length) ' ' =
        ' ' :: List.replicate ((natRepr v2).length - (natRepr v1).length - 1) ' ' := by
      have : (natRepr v2).length - (natRepr v1).length =
          ((natRepr v2).length - (natRepr v1).length - 1) + 1 := by omega
      rw [this]
      rfl
    rw [hrep]
    cases hnn : natRepr v2 with
    | nil => exact absurd hnn (natRepr_ne_nil v2)
    | cons x xs =>
      have hx : 48 ≤ x.toNat ∧ x.toNat ≤ 57 := by
        have := natRepr_digits v2 x (by rw [hnn]; exact List.mem_cons_self x xs)
        exact this
      show pyStrLt (' ' :: _) (x :: (xs ++ s2)) = true
      refine pyStrLt_cons_lt _ _ _ _ ?_
      show (' ').toNat < x.toNat
      have : (' ').toNat = 32 := rfl
      omega

theorem joinSp_cons_eq (x : Str) (xs : List Str) :
    joinSp (x :: xs) = x ++ joinSpTail xs := by
  cases xs with
  | nil => simp [joinSp, joinSep, joinSpTail]
  | cons y r =>
    show joinSep [' '] (x :: y :: r) = x ++ (' ' :: joinSp (y :: r))
    rw [joinSep]
    rw [List.append_assoc]
    rfl

theorem generate_sort_title_cons (title : Str) (w : Str) (rest : List Str)
    (h : title_sort_words title = w :: rest) :
    generate_sort_title title =
      joinSp ((if letter_or_symbol (headChar
          (if matchDigit (headChar w) then numWord w else w)) ≠
            [headChar (if matchDigit (headChar w) then numWord w else w)] ∧
          (65 < (headChar (if matchDigit (headChar w) then numWord w else w)).toNat ∨
            (57 < (headChar (if matchDigit (headChar w) then numWord w else w)).toNat ∧
              (headChar (if matchDigit (headChar w) then numWord w else w)).toNat < 65))
        then [['/']] else []) ++
        [capitalize (if matchDigit (headChar w) then numWord w else w)] ++
        rest.map restWord) := by
  unfold generate_sort_title
  rw [h]

theorem letter_or_symbol_ne (c : Char) (h : isAsciiAlpha c = false) :
    letter_or_symbol c ≠ [c] := by
  unfold letter_or_symbol ascii_text
  rw [if_neg]
  · intro he
    have := congrArg List.length he
    simp [SYMBOLS, str] at this
  · simp [h]

theorem letter_or_symbol_eq (c : Char) (h : isAsciiAlpha c = true) :
    letter_or_symbol c = [c] := by
  unfold letter_or_symbol ascii_text
  rw [if_pos]
  simp [h]

theorem pad10_chars_lt (v : Nat) :
    ∀ ch ∈ pad10 (natRepr v), ch.toNat < 65 := by
  intro ch hch
  rcases List.mem_append.mp hch with hch | hch
  · rw [List.eq_of_mem_replicate hch]
    decide
  · have := natRepr_digits v ch hch
    omega

theorem pad10_natRepr_ne_nil (v : Nat) : pad10 (natRepr v) ≠ [] := by
  intro h
  have h2 := congrArg List.length h
  rw [pad10, List.length_append] at h2
  simp at h2
  exact natRepr_ne_nil v h2.2

theorem lowerStr_eq_self (l : Str) (h : ∀ ch ∈ l, ch.toNat < 65) :
    lowerStr l = l := by
  unfold lowerStr
  refine List.map_congr_left (fun ch hch => toLower_eq_self_of_lt ch (h ch hch))
    |>.trans (List.map_id l)

theorem capitalize_pad (v : Nat) (sfx : Str) :
    capitalize (pad10 (natRepr v) ++ sfx) =
      pad10 (natRepr v) ++ lowerStr sfx := by
  cases hp : pad10 (natRepr v) with
  | nil => exact absurd hp (pad10_natRepr_ne_nil v)
  | cons hd tl =>
    have hhd : hd.toNat < 65 := pad10_chars_lt v hd
      (by rw [hp]; exact List.mem_cons_self hd tl)
    have htl : ∀ ch ∈ tl, ch.toNat < 65 := fun ch hch =>
      pad10_chars_lt v ch (by rw [hp]; exact List.mem_cons_of_mem hd hch)
    show hd.toUpper :: lowerStr (tl ++ sfx) = (hd :: tl) ++ lowerStr sfx
    rw [toUpper_eq_self_of_lt hd (by omega)]
    unfold lowerStr
    rw [List.map_append]
    rw [show tl.map Char.toLower = tl from
      (List.map_congr_left (fun ch hch =>
        toLower_eq_self_of_lt ch (htl ch hch))).trans (List.map_id tl)]
    rfl

theorem pad10_head_space (l : Str) (h : l.length ≤ 9) :
    pad10 l = ' ' :: (List.replicate (9 - l.length) ' ' ++ l) := by
  unfold pad10
  have h10 : 10 - l.length = (9 - l.length) + 1 := by omega
  rw [h10]
  rfl

theorem pad10_chars_le (v : Nat) :
    ∀ ch ∈ pad10 (natRepr v), ch.toNat ≤ 57 := by
  intro ch hch
  rcases List.mem_append.mp hch with hch | hch
  · rw [List.eq_of_mem_replicate hch]
    decide
  · exact (natRepr_digits v ch hch).2

theorem numWord_digit_head (c : Char) (w : Str) :
    numWord (c :: w) =
      pad10 (natRepr (digitsVal (((c :: w).filter (fun x => x ≠ ',')).takeWhile
        matchDigit))) ++
      ((c :: w).filter (fun x => x ≠ ',')).dropWhile matchDigit := rfl

theorem gst_numeric_key (t : Str) (c : Char) (w : Str) (rest : List Str)
    (h : title_sort_words t = (c :: w) :: rest) (hdig : matchDigit c = true) :
    generate_sort_title t =
      (pad10 (natRepr (digitsVal (((c :: w).filter (fun x => x ≠ ',')).takeWhile
          matchDigit))) ++
        lowerStr (((c :: w).filter (fun x => x ≠ ',')).dropWhile matchDigit)) ++
      joinSpTail (rest.map restWord) := by
  rw [generate_sort_title_cons t (c :: w) rest h]
  have hhead : headChar (c :: w) = c := rfl
  rw [hhead, if_pos hdig, numWord_digit_head c w]
  set V := digitsVal (((c :: w).filter (fun x => x ≠ ',')).takeWhile matchDigit)
    with hV
  set S := ((c :: w).filter (fun x => x ≠ ',')).dropWhile matchDigit with hS
  have hh : (headChar (pad10 (natRepr V) ++ S)).toNat ≤ 57 := by
    cases hp : pad10 (natRepr V) with
    | nil => exact absurd hp (pad10_natRepr_ne_nil V)
    | cons hd tl =>
      show hd.toNat ≤ 57
      exact pad10_chars_le V hd (by rw [hp]; exact List.mem_cons_self hd tl)
  have hncond : ¬ (letter_or_symbol (headChar (pad10 (natRepr V) ++ S)) ≠
      [headChar (pad10 (natRepr V) ++ S)] ∧
      (65 < (headChar (pad10 (natRepr V) ++ S)).toNat ∨
        (57 < (headChar (pad10 (natRepr V) ++ S)).toNat ∧
          (headChar (pad10 (natRepr V) ++ S)).toNat < 65))) := by
    intro hcond
    rcases hcond.2 with h2 | h2
    · omega
    · omega
  rw [if_neg hncond, List.nil_append, List.singleton_append, joinSp_cons_eq,
    capitalize_pad V S]

theorem gst_symbol_key (t : Str) (c : Char) (w : Str) (rest : List Str)
    (h : title_sort_words t = (c :: w) :: rest)
    (hdig : matchDigit c = false) (halpha : isAsciiAlpha c = false) :
    ∃ tail, generate_sort_title t =
      (if 65 < c.toNat ∨ (57 < c.toNat ∧ c.toNat < 65) then '/' else c) :: tail := by
  rw [generate_sort_title_cons t (c :: w) rest h]
  have hhead : headChar (c :: w) = c := rfl
  have hdig' : ¬ (matchDigit (headChar (c :: w)) = true) := by
    rw [hhead, hdig]
    simp
  rw [if_neg hdig', hhead]
  by_cases hc2 : 65 < c.toNat ∨ (57 < c.toNat ∧ c.toNat < 65)
  · rw [if_pos ⟨letter_or_symbol_ne c halpha, hc2⟩, if_pos hc2]
    refine ⟨' ' :: joinSp (capitalize (c :: w) :: rest.map restWord), ?_⟩
    rw [show ([['/']] ++ [capitalize (c :: w)] ++ rest.map restWord) =
      (['/'] :: capitalize (c :: w) :: rest.map restWord) from rfl]
    rw [joinSp_cons_eq]
    rfl
  · rw [if_neg (fun hcond => hc2 hcond.2), if_neg hc2]
    have hup : c.toUpper = c := by
      have hc2' := hc2
      push_neg at hc2'
      exact toUpper_eq_self_of_lt c (by omega)
    refine ⟨lowerStr w ++ joinSpTail (rest.map restWord), ?_⟩
    rw [List.nil_append, List.singleton_append, joinSp_cons_eq]
    show capitalize (c :: w) ++ _ = _
    rw [show capitalize (c :: w) = c.toUpper :: lowerStr w from rfl, hup]
    rfl

theorem gst_letter_key (t : Str) (c : Char) (w : Str) (rest : List Str)
    (h : title_sort_words t = (c :: w) :: rest)
    (halpha : isAsciiAlpha c = true) :
    ∃ tail, generate_sort_title t = c.toUpper :: tail := by
  have hdig : matchDigit c = false := by
    unfold isAsciiAlpha at halpha
    unfold matchDigit
    simp only [Bool.or_eq_true, Bool.and_eq_true, decide_eq_true_eq] at halpha
    simp only [Bool.and_eq_false_iff, decide_eq_false_iff_not]
    rcases halpha with h' | h'
    · right; omega
    · right; omega
  rw [generate_sort_title_cons t (c :: w) rest h]
  have hhead : headChar (c :: w) = c := rfl
  have hdig' : ¬ (matchDigit (headChar (c :: w)) = true) := by
    rw [hhead, hdig]
    simp
  rw [if_neg hdig', hhead]
  rw [if_neg (fun hcond => hcond.1 (letter_or_symbol_eq c halpha))]
  refine ⟨lowerStr w ++ joinSpTail (rest.map restWord), ?_⟩
  rw [List.nil_append, List.singleton_append, joinSp_cons_eq]
  rfl

/-- C3 (amended): for a title whose leading token (after article
handling) starts with an ASCII character above the space that is
neither a digit nor a letter, `generate_sort_title` prefixes the
sort-forcing `'/'` exactly when that character compares above `'A'` or
lies strictly between `'9'` and `'A'`; under the produced keys'
code-point-lexicographic order, such a symbol-led key sorts after every
numeric-led key whose integer part has at most 9 digits and before
every letter-led key, and the numeric-led key also sorts before the
letter-led key. -/
theorem c3_symbol_sort_amended
    (t1 t2 t3 : Str) (c1 c2 c3 : Char) (w1 w2 w3 : Str)
    (r1 r2 r3 : List Str)
    (h1 : title_sort_words t1 = (c1 :: w1) :: r1)
    (hd1 : matchDigit c1 = false) (ha1 : isAsciiAlpha c1 = false)
    (hsp1 : 32 < c1.toNat)
    (h2 : title_sort_words t2 = (c2 :: w2) :: r2)
    (ha2 : isAsciiAlpha c2 = true)
    (h3 : title_sort_words t3 = (c3 :: w3) :: r3)
    (hd3 : matchDigit c3 = true)
    (hval : digitsVal (((c3 :: w3).filter (fun x => x ≠ ',')).takeWhile
      matchDigit) < 10 ^ 9) :
    (∃ tail, generate_sort_title t1 =
      (if 65 < c1.toNat ∨ (57 < c1.toNat ∧ c1.toNat < 65) then '/'
        else c1) :: tail) ∧
    pyStrLt (generate_sort_title t3) (generate_sort_title t1) = true ∧
    pyStrLt (generate_sort_title t1) (generate_sort_title t2) = true ∧
    pyStrLt (generate_sort_title t3) (generate_sort_title t2) = true := by
  obtain ⟨tl1, hk1⟩ := gst_symbol_key t1 c1 w1 r1 h1 hd1 ha1
  obtain ⟨tl2, hk2⟩ := gst_letter_key t2 c2 w2 r2 h2 ha2
  have hk3 := gst_numeric_key t3 c3 w3 r3 h3 hd3
  set V3 := digitsVal (((c3 :: w3).filter (fun x => x ≠ ',')).takeWhile
    matchDigit) with hV3
  have hlen3 : (natRepr V3).length ≤ 9 :=
    natRepr_length_le V3 9 hval (by omega)
  have hpad : pad10 (natRepr V3) =
      ' ' :: (List.replicate (9 - (natRepr V3).length) ' ' ++ natRepr V3) :=
    pad10_head_space (natRepr V3) hlen3
  have hk3' : generate_sort_title t3 =
      ' ' :: (((List.replicate (9 - (natRepr V3).length) ' ' ++ natRepr V3) ++
        lowerStr (((c3 :: w3).filter (fun x => x ≠ ',')).dropWhile
          matchDigit)) ++
        joinSpTail (r3.map restWord)) := by
    rw [hk3, hpad]
    rfl
  have hhead1 : 32 < (if 65 < c1.toNat ∨ (57 < c1.toNat ∧ c1.toNat < 65)
      then '/' else c1).toNat ∧
      (if 65 < c1.toNat ∨ (57 < c1.toNat ∧ c1.toNat < 65)
      then '/' else c1).toNat < 48 := by
    have hd1' : ¬ (48 ≤ c1.toNat ∧ c1.toNat ≤ 57) := by
      intro hc
      unfold matchDigit at hd1
      simp only [Bool.and_eq_false_iff, decide_eq_false_iff_not] at hd1
      rcases hd1 with h' | h' <;> omega
    have ha1' : ¬ (65 ≤ c1.toNat ∧ c1.toNat ≤ 90) := by
      intro hc
      unfold isAsciiAlpha at ha1
      simp only [Bool.or_eq_false_iff, Bool.and_eq_false_iff,
        decide_eq_false_iff_not] at ha1
      rcases ha1.1 with h' | h' <;> omega
    by_cases hc : 65 < c1.toNat ∨ (57 < c1.toNat ∧ c1.toNat < 65)
    · rw [if_pos hc]
      exact ⟨by decide, by decide⟩
    · rw [if_neg hc]
      push_neg at hc
      exact ⟨hsp1, by omega⟩
  have hu2 := toUpper_alpha_range c2 ha2
  have h32 : (' ' : Char).toNat = 32 := rfl
  refine ⟨⟨tl1, hk1⟩, ?_, ?_, ?_⟩
  · rw [hk3', hk1]
    refine pyStrLt_cons_lt _ _ _ _ ?_
    omega
  · rw [hk1, hk2]
    refine pyStrLt_cons_lt _ _ _ _ ?_
    omega
  · rw [hk3', hk2]
    refine pyStrLt_cons_lt _ _ _ _ ?_
    omega

/-- C3 witness: with `"@Zebra"` (symbol `'@'`, strictly between `'9'`
and `'A'`, so it gains the `'/'` prefix), `"The Left Hand of Darkness"`
(letter-led after the article moves) and `"2001: A Space Odyssey"`
(numeric-led, four digits), the numeric key sorts before the symbol
key, which sorts before the letter key. -/
theorem c3_symbol_sort_witness :
    title_sort_words (str "@Zebra") = ('@' :: str "Zebra") :: [] ∧
    matchDigit '@' = false ∧ isAsciiAlpha '@' = false ∧ 32 < '@'.toNat ∧
    title_sort_words (str "The Left Hand of Darkness") =
      ('L' :: str "eft") ::
        [str "Hand", str "of", str "Darkness,", str "The"] ∧
    isAsciiAlpha 'L' = true ∧
    title_sort_words (str "2001: A Space Odyssey") =
      ('2' :: str "001:") :: [str "A", str "Space", str "Odyssey"] ∧
    matchDigit '2' = true ∧
    digitsVal ((('2' :: str "001:").filter (fun x => x ≠ ',')).takeWhile
      matchDigit) < 10 ^ 9 ∧
    ((∃ tail, generate_sort_title (str "@Zebra") =
      (if 65 < '@'.toNat ∨ (57 < '@'.toNat ∧ '@'.toNat < 65) then '/'
        else '@') :: tail) ∧
    pyStrLt (generate_sort_title (str "2001: A Space Odyssey"))
      (generate_sort_title (str "@Zebra")) = true ∧
    pyStrLt (generate_sort_title (str "@Zebra"))
      (generate_sort_title (str "The Left Hand of Darkness")) = true ∧
    pyStrLt (generate_sort_title (str "2001: A Space Odyssey"))
      (generate_sort_title (str "The Left Hand of Darkness")) = true) :=
  ⟨by decide, by decide, by decide, by decide, by decide, by decide,
    by decide, by decide, by decide,
    c3_symbol_sort_amended (str "@Zebra")
      (str "The Left Hand of Darkness") (str "2001: A Space Odyssey")
      '@' 'L' '2' (str "Zebra") (str "eft") (str "001:")
      [] [str "Hand", str "of", str "Darkness,", str "The"]
      [str "A", str "Space", str "Odyssey"]
      (by decide) (by decide) (by decide) (by decide) (by decide)
      (by decide) (by decide) (by decide) (by decide)⟩

/-- C4 (amended): for a title whose leading token starts with a digit,
the key replaces the token (after stripping commas) by the value of its
leading digit run rendered right-justified in a 10-character
space-padded field, followed by the lower-cased remainder of the token
and the remaining words; two such titles whose values differ, the
larger below `10^10`, compare numerically under the keys'
code-point-lexicographic order. -/
theorem c4_numeric_padding_amended
    (t t' : Str) (c c' : Char) (w w' : Str) (rest rest' : List Str)
    (h : title_sort_words t = (c :: w) :: rest)
    (hdig : matchDigit c = true)
    (h' : title_sort_words t' = (c' :: w') :: rest')
    (hdig' : matchDigit c' = true)
    (hlt : digitsVal (((c :: w).filter (fun x => x ≠ ',')).takeWhile
        matchDigit) <
      digitsVal (((c' :: w').filter (fun x => x ≠ ',')).takeWhile
        matchDigit))
    (hbig : digitsVal (((c' :: w').filter (fun x => x ≠ ',')).takeWhile
        matchDigit) < 10 ^ 10) :
    generate_sort_title t =
      (pad10 (natRepr (digitsVal (((c :: w).filter
          (fun x => x ≠ ',')).takeWhile matchDigit))) ++
        lowerStr (((c :: w).filter (fun x => x ≠ ',')).dropWhile
          matchDigit)) ++
      joinSpTail (rest.map restWord) ∧
    pyStrLt (generate_sort_title t) (generate_sort_title t') = true := by
  have hk := gst_numeric_key t c w rest h hdig
  have hk' := gst_numeric_key t' c' w' rest' h' hdig'
  refine ⟨hk, ?_⟩
  rw [hk, hk', List.append_assoc, List.append_assoc]
  exact pad10_lt _ _ _ _ hlt hbig

/-- C4 witness: `"99 balloons"` (value 99) keys as ten-width
space-padded `99` plus the lower-cased remainder, and sorts before
`"2001: A Space Odyssey"` (value 2001) although `'9' > '2'`
lexically. -/
theorem c4_numeric_padding_witness :
    title_sort_words (str "99 balloons") =
      ('9' :: str "9") :: [str "balloons"] ∧
    matchDigit '9' = true ∧
    title_sort_words (str "2001: A Space Odyssey") =
      ('2' :: str "001:") :: [str "A", str "Space", str "Odyssey"] ∧
    matchDigit '2' = true ∧
    digitsVal ((('9' :: str "9").filter (fun x => x ≠ ',')).takeWhile
      matchDigit) <
      digitsVal ((('2' :: str "001:").filter (fun x => x ≠ ',')).takeWhile
        matchDigit) ∧
    digitsVal ((('2' :: str "001:").filter (fun x => x ≠ ',')).takeWhile
      matchDigit) < 10 ^ 10 ∧
    (generate_sort_title (str "99 balloons") =
      (pad10 (natRepr (digitsVal ((('9' :: str "9").filter
          (fun x => x ≠ ',')).takeWhile matchDigit))) ++
        lowerStr ((('9' :: str "9").filter (fun x => x ≠ ',')).dropWhile
          matchDigit)) ++
      joinSpTail ([str "balloons"].map restWord) ∧
    pyStrLt (generate_sort_title (str "99 balloons"))
      (generate_sort_title (str "2001: A Space Odyssey")) = true) :=
  ⟨by decide, by decide, by decide, by decide, by decide, by decide,
    c4_numeric_padding_amended (str "99 balloons")
      (str "2001: A Space Odyssey") '9' '2' (str "9") (str "001:")
      [str "balloons"] [str "A", str "Space", str "Odyssey"]
      (by decide) (by decide) (by decide) (by decide) (by decide)
      (by decide)⟩

end MagicCatalog
